import Mathlib

/-!
The viewer of `web/pdf_find_result_viewer.js`: excerpt boundaries, escaping and incremental page rendering

A shallow embedding of the class `PDFFindResultViewer`.

* A JavaScript string is a sequence of UTF-16 code units; it is modelled as a
  list of code units (`JSString`).  Indices and lengths are those of the list.
* Offsets handed to `_findStart` and `_findEnd` are JavaScript integers and are modelled in `Int`.
* The two `for` loops of `_findStart` and `_findEnd` are recursive functions that carry the loop
  variables and test the loop guard at every step; the recursion is driven by an iteration
  budget, and `findStart_fuel`, `findEnd_fuel` show that the budget handed over by
  `_findStart`, `_findEnd` is never exhausted before the guard fails.
-/

namespace PDFFindResultViewer

/-! ## Strings -/

/-- One UTF-16 code unit. -/
abbrev CodeUnit := Nat

/-- A JavaScript string: its sequence of UTF-16 code units. -/
abbrev JSString := List CodeUnit

/-- UTF-16 code units of one Unicode scalar value. -/
def utf16Char (c : Char) : List CodeUnit :=
  if c.toNat < 0x10000 then [c.toNat]
  else [0xD800 + (c.toNat - 0x10000) / 0x400, 0xDC00 + (c.toNat - 0x10000) % 0x400]

/-- The JavaScript string written by a source literal. -/
def utf16 (s : String) : JSString :=
  s.toList.flatMap utf16Char

/-- JavaScript `String.prototype.substring(start, end)`: both arguments are clamped to `[0, length]` and
swapped when `start > end`. -/
def substring (s : JSString) (a b : Int) : JSString :=
  let n : Int := s.length
  let a' := min (max a 0) n
  let b' := min (max b 0) n
  let lo := min a' b'
  let hi := max a' b'
  (s.drop lo.toNat).take (hi.toNat - lo.toNat)

/-- JavaScript `String.prototype.includes(needle)`: `needle` occurs as a contiguous run of `hay`. -/
def includes (hay needle : JSString) : Bool :=
  hay.tails.any (fun t => needle.isPrefixOf t)

/-- Constant `const PUNCTUATIONS = '。？！，；.?!.;'` (line 18), code unit by code unit:
`。` U+3002, `？` U+FF1F, `！` U+FF01, `，` U+FF0C, `；` U+FF1B, `.` `?` `!` `.` `;`. -/
def PUNCTUATIONS : JSString :=
  [0x3002, 0xFF1F, 0xFF01, 0xFF0C, 0xFF1B, 0x2E, 0x3F, 0x21, 0x2E, 0x3B]

/-- Constant `const MATCH_EXTENT = 30` (line 19). -/
def MATCH_EXTENT : Int := 30

/-! ## Excerpt boundaries -/

/-- The test of lines 113 and 132: `PUNCTUATIONS.includes(pageContent.substring(idx, idx + 1))`. -/
def punctAt (pageContent : JSString) (idx : Int) : Bool :=
  includes PUNCTUATIONS (substring pageContent idx (idx + 1))

/-- The value of the local `result`: `false` (`none`) or a number. -/
abbrev Boundary := Option Int

/-- The loop of `_findStart` (lines 112-124), entered with the current `idx` and `result`. -/
def findStartLoop (pageContent : JSString) (matchStart prevMatchEnd : Int) :
    Nat → Int → Boundary → Boundary
  | 0, _, result => result
  | fuel + 1, idx, result =>
    if idx ≥ prevMatchEnd then
      if punctAt pageContent idx then
        let len := matchStart - (idx + 1)
        if len > MATCH_EXTENT then
          result
        else if len = MATCH_EXTENT then
          some (idx + 1)
        else
          findStartLoop pageContent matchStart prevMatchEnd fuel (idx - 1) (some (idx + 1))
      else
        findStartLoop pageContent matchStart prevMatchEnd fuel (idx - 1) result
    else
      result

/-- Method `_findStart(pageContent, matchStart, prevMatchEnd)` (lines 110-127). -/
def _findStart (pageContent : JSString) (matchStart prevMatchEnd : Int) : Int :=
  match findStartLoop pageContent matchStart prevMatchEnd
      (matchStart - prevMatchEnd).toNat (matchStart - 1) none with
  | none => max prevMatchEnd (matchStart - MATCH_EXTENT)
  | some r => r

/-- The loop of `_findEnd` (lines 131-143), entered with the current `idx` and `result`. -/
def findEndLoop (pageContent : JSString) (matchEnd nextMatchStart : Int) :
    Nat → Int → Boundary → Boundary
  | 0, _, result => result
  | fuel + 1, idx, result =>
    if idx < nextMatchStart then
      if punctAt pageContent idx then
        let len := idx + 1 - matchEnd
        if len > MATCH_EXTENT then
          result
        else if len = MATCH_EXTENT then
          some (idx + 1)
        else
          findEndLoop pageContent matchEnd nextMatchStart fuel (idx + 1) (some (idx + 1))
      else
        findEndLoop pageContent matchEnd nextMatchStart fuel (idx + 1) result
    else
      result

/-- Method `_findEnd(pageContent, matchEnd, nextMatchStart)` (lines 129-146). -/
def _findEnd (pageContent : JSString) (matchEnd nextMatchStart : Int) : Int :=
  match findEndLoop pageContent matchEnd nextMatchStart
      (nextMatchStart - matchEnd).toNat matchEnd none with
  | none => min nextMatchStart (matchEnd + MATCH_EXTENT)
  | some r => r

/-! ## Escaping -/

/-- JavaScript `s.replace(/c/g, rep)` for a pattern that is one literal character `c`: every occurrence of
`c` is replaced by `rep`.  None of the replacement strings of `_escapeHtml` holds a `$`
pattern, so each is inserted as it is written. -/
def replaceAll (c : CodeUnit) (rep : JSString) (s : JSString) : JSString :=
  s.flatMap (fun x => if x = c then rep else [x])

/-- Code unit of `&`. -/
def ampersand : CodeUnit := 38
/-- Code unit of `<`. -/
def lessThan : CodeUnit := 60
/-- Code unit of `>`. -/
def greaterThan : CodeUnit := 62
/-- Code unit of the double quote. -/
def doubleQuote : CodeUnit := 34
/-- Code unit of the single quote. -/
def singleQuote : CodeUnit := 39

/-- Method `_escapeHtml(unsafe)` (lines 101-108): five global replacements, one after the other. -/
def _escapeHtml (input : JSString) : JSString :=
  replaceAll singleQuote (utf16 "&#039;")
    (replaceAll doubleQuote (utf16 "&quot;")
      (replaceAll greaterThan (utf16 "&gt;")
        (replaceAll lessThan (utf16 "&lt;")
          (replaceAll ampersand (utf16 "&amp;") input))))

/-- The five entities `_escapeHtml` writes. -/
def entities : List JSString :=
  [utf16 "&amp;", utf16 "&lt;", utf16 "&gt;", utf16 "&quot;", utf16 "&#039;"]

/-- What `_escapeHtml` makes of one character. -/
def escapeChar (c : CodeUnit) : JSString :=
  if c = ampersand then utf16 "&amp;"
  else if c = lessThan then utf16 "&lt;"
  else if c = greaterThan then utf16 "&gt;"
  else if c = doubleQuote then utf16 "&quot;"
  else if c = singleQuote then utf16 "&#039;"
  else [c]

/-! ## The find controller, as the viewer reads it -/

/-- Modelled from the spec: the enumeration `FindState` is imported from
`./pdf_find_controller`, which is not among the sources at hand.  The viewer only compares a
notified state with `FindState.PENDING`. -/
inductive FindState where
  | FOUND
  | NOT_FOUND
  | WRAPPED
  | PENDING
  deriving DecidableEq, Repr

/-- The fields of the find controller (`source`) that the viewer reads.
`_pageMatches` is sparse: an entry is absent (`none`, also past the end of the list) until the
matches of that page are computed; a computed entry is an array of start offsets, possibly
empty. -/
structure Source where
  /-- The query `source.state.query`. -/
  query : JSString
  /-- The text of each page. -/
  _pageContents : List JSString
  /-- The start offsets of the matches of each page, where computed. -/
  _pageMatches : List (Option (List Nat))
  /-- Truthiness of `source._dirtyMatch`. -/
  _dirtyMatch : Bool
  deriving DecidableEq, Repr

/-! ## The display -/

/-- One `<p>` element of a page block: the markup assigned to `innerHTML` and the arguments
`(pageIdx, matchIdx)` its click handler passes to `_goToMatch`. -/
structure MatchElement where
  innerHTML : JSString
  onclick : Nat × Nat
  deriving DecidableEq, Repr

/-- One page block, the `<div>` with id `'find-result-page-' + pageIdx`.  The id is a one-to-one
function of the page index and is modelled by the index itself. -/
structure PageDiv where
  id : Nat
  children : List MatchElement
  deriving DecidableEq, Repr

/-- The state of a viewer: the sparse array `this.pageMatches` of rendered flags (a hole reads
as `false`) and the children of `this.container`, in document order.  The container is taken
to be attached to the document and to hold the only elements whose id is that of a page
block. -/
structure Viewer where
  pageMatches : List Bool
  container : List PageDiv
  deriving DecidableEq, Repr

/-- The viewer right after `constructor` (lines 36-45), handed an empty container. -/
def Viewer.new : Viewer :=
  { pageMatches := [], container := [] }

/-- Truthiness of `this.pageMatches[idx]`. -/
def flag (pageMatches : List Bool) (idx : Nat) : Bool :=
  pageMatches.getD idx false

/-- Expression `this.pageMatches[idx] = true`: an assignment past the end grows the array, leaving holes. -/
def setFlag (pageMatches : List Bool) (idx : Nat) : List Bool :=
  if idx < pageMatches.length then pageMatches.set idx true
  else pageMatches ++ List.replicate (idx - pageMatches.length) false ++ [true]

/-- JavaScript `document.getElementById('find-result-page-' + pageIdx)`: the first element in document
order with that id, as its position among the children of the container; `none` is `null`. -/
def getElementById (container : List PageDiv) (pageIdx : Nat) : Option Nat :=
  container.findIdx? (fun d => d.id == pageIdx)

/-- Method `_insertAfter(newNode, referenceNode)` (lines 164-166) for a reference node that is the
child of the container at position `ref`:
`referenceNode.parentNode.insertBefore(newNode, referenceNode.nextSibling)`. -/
def _insertAfter (container : List PageDiv) (newNode : PageDiv) (ref : Nat) : List PageDiv :=
  container.take (ref + 1) ++ newNode :: container.drop (ref + 1)

/-- Method `_findPrevPageMatch(pageIdx)` (lines 155-162): the loop runs `idx` from `pageIdx - 1` down
to `0`. -/
def _findPrevPageMatch (pageMatches : List Bool) : Nat → Option Nat
  | 0 => none
  | idx + 1 => if flag pageMatches idx then some idx else _findPrevPageMatch pageMatches idx

/-! ## The handlers -/

/-- Method `_onUpdateFindControlState({ source, state, })` (lines 47-52). -/
def _onUpdateFindControlState (state : FindState) (source : Source) (v : Viewer) : Viewer :=
  if state = FindState.PENDING ∧ source._dirtyMatch = true then
    { pageMatches := [], container := [] }
  else v

/-- Expression `matches.len` (line 76): an `Array` has no property `len`, reading it gives `undefined`. -/
def matchesLen (_matches : List Nat) : Option Nat :=
  none

/-- Expression `matchIdx < len - 1` for `len` a number or `undefined`: `undefined - 1` is `NaN` and a
comparison with `NaN` is `false`. -/
def ltLenMinusOne (matchIdx : Nat) (len : Option Nat) : Bool :=
  match len with
  | none => false
  | some n => decide ((matchIdx : Int) < (n : Int) - 1)

/-- Truthiness of a value that is a number or `null`: `null` and `0` are falsy. -/
def truthy (x : Option Nat) : Bool :=
  match x with
  | none => false
  | some n => n != 0

/-- The body of the inner loop (lines 73-87): the `<p>` element of match `matchIdx`. -/
def matchElement (source : Source) (pageIdx : Nat) (pageContent : JSString)
    (pageMatchesOfPage : List Nat) (matchIdx : Nat) : MatchElement :=
  let query := source.query
  let queryLength : Int := query.length
  let matchOffset : Int := pageMatchesOfPage.getD matchIdx 0
  let prevMatch : Option Nat :=
    if matchIdx > 0 then pageMatchesOfPage[matchIdx - 1]? else none
  let nextMatch : Option Nat :=
    if ltLenMinusOne matchIdx (matchesLen pageMatchesOfPage) then
      pageMatchesOfPage[matchIdx + 1]? else none
  let prevMatchEnd : Int := if truthy prevMatch then (prevMatch.getD 0 : Int) + queryLength else 0
  let nextMatchStart : Int := if truthy nextMatch then (nextMatch.getD 0 : Int)
    else pageContent.length
  { innerHTML :=
      _escapeHtml (substring pageContent
        (_findStart pageContent matchOffset prevMatchEnd) matchOffset) ++ utf16 "<em>" ++
      _escapeHtml query ++ utf16 "</em>" ++
      _escapeHtml (substring pageContent (matchOffset + queryLength)
        (_findEnd pageContent (matchOffset + queryLength) nextMatchStart))
    onclick := (pageIdx, matchIdx) }

/-- The page block built by lines 69-89 for page `pageIdx` with match offsets `matches`. -/
def buildPageDiv (source : Source) (pageIdx : Nat) (pageMatchesOfPage : List Nat) : PageDiv :=
  { id := pageIdx
    children := (List.range pageMatchesOfPage.length).map
      (matchElement source pageIdx (source._pageContents.getD pageIdx []) pageMatchesOfPage) }

/-- How a handler ends: normally, or by throwing; either way it leaves a viewer state. -/
inductive Outcome where
  | done (v : Viewer)
  | threw (v : Viewer)
  deriving DecidableEq, Repr

/-- The viewer state a handler leaves behind. -/
def Outcome.state : Outcome → Viewer
  | .done v => v
  | .threw v => v

/-- One pass of the outer loop body (lines 59-97) for page `pageIdx`.  When
`getElementById` finds no block, `_insertAfter` reads `parentNode` of `null` and throws. -/
def renderPage (source : Source) (v : Viewer) (pageIdx : Nat) : Outcome :=
  if flag v.pageMatches pageIdx then .done v
  else
    match (source._pageMatches[pageIdx]?).join with
    | none => .done v
    | some pageMatchesOfPage =>
      let pageDiv := buildPageDiv source pageIdx pageMatchesOfPage
      match _findPrevPageMatch v.pageMatches pageIdx with
      | none =>
        .done { pageMatches := setFlag v.pageMatches pageIdx
                container := v.container ++ [pageDiv] }
      | some prevPageMatch =>
        match getElementById v.container prevPageMatch with
        | none => .threw v
        | some ref =>
          .done { pageMatches := setFlag v.pageMatches pageIdx
                  container := _insertAfter v.container pageDiv ref }

/-- The outer loop (lines 57-98) over the page indices still to visit. -/
def pagesLoop (source : Source) : List Nat → Viewer → Outcome
  | [], v => .done v
  | pageIdx :: rest, v =>
    match renderPage source v pageIdx with
    | .done v' => pagesLoop source rest v'
    | .threw v' => .threw v'

/-- Method `_onUpdateFindMatchesCount({ source, })` (lines 54-99). -/
def _onUpdateFindMatchesCount (source : Source) (v : Viewer) : Outcome :=
  pagesLoop source (List.range source._pageContents.length) v

/-- The public method `reset()` (lines 168-179): it empties the container and leaves
`this.pageMatches` alone. -/
def reset (v : Viewer) : Viewer :=
  { v with container := [] }

/-- A notification of the event bus, with the payload fields the handlers read. -/
inductive Notification where
  | updatefindcontrolstate (state : FindState) (source : Source)
  | updatefindmatchescount (source : Source)
  deriving DecidableEq, Repr

/-- The viewer state after one notification is dispatched to its handler. -/
def dispatch (v : Viewer) : Notification → Viewer
  | .updatefindcontrolstate state source => _onUpdateFindControlState state source v
  | .updatefindmatchescount source => (_onUpdateFindMatchesCount source v).state

/-- The viewer state after a sequence of notifications, first to last. -/
def dispatchAll (v : Viewer) (ns : List Notification) : Viewer :=
  ns.foldl dispatch v

/-- The page indices of the blocks in the display, in document order. -/
def displayedPages (v : Viewer) : List Nat :=
  v.container.map (fun d => d.id)

/-! ## A sample session -/

/-- A snapshot of a find controller with three pages, all searched, for the query `test`. -/
def sampleSource : Source :=
  { query := utf16 "test"
    _pageContents :=
      [utf16 "Hello world. This is a test sentence.", utf16 "nothing here",
        utf16 "a test <b> & test"]
    _pageMatches := [some [23], some [], some [2, 13]]
    _dirtyMatch := true }

/-- The viewer after it rendered `sampleSource`. -/
def sampleViewer : Viewer :=
  (_onUpdateFindMatchesCount sampleSource Viewer.new).state

/-! ## The scenario of the specification -/

/-- The page text of the scenario. -/
def scenarioText : JSString :=
  utf16 "Hello world. This is a test sentence for matching purposes here."

/-! ## The bounds and boundaries of one excerpt -/

/-- The lower bound `prevMatchEnd` of lines 75 and 78, computed from the match offsets of the
page. -/
def prevMatchEnd (query : JSString) (pageMatchesOfPage : List Nat) (matchIdx : Nat) : Int :=
  let prevMatch : Option Nat :=
    if matchIdx > 0 then pageMatchesOfPage[matchIdx - 1]? else none
  if truthy prevMatch then (prevMatch.getD 0 : Int) + query.length else 0

/-- The upper bound `nextMatchStart` of lines 76, 77 and 79. -/
def nextMatchStart (pageContent : JSString) (pageMatchesOfPage : List Nat) (matchIdx : Nat) :
    Int :=
  let nextMatch : Option Nat :=
    if ltLenMinusOne matchIdx (matchesLen pageMatchesOfPage) then
      pageMatchesOfPage[matchIdx + 1]? else none
  if truthy nextMatch then (nextMatch.getD 0 : Int) else pageContent.length

/-- Where the excerpt before match `matchIdx` starts: the call of `_findStart` on line 81. -/
def excerptStart (query pageContent : JSString) (pageMatchesOfPage : List Nat)
    (matchIdx : Nat) : Int :=
  _findStart pageContent (pageMatchesOfPage.getD matchIdx 0)
    (prevMatchEnd query pageMatchesOfPage matchIdx)

/-- Where the excerpt after match `matchIdx` ends: the call of `_findEnd` on lines 83-84. -/
def excerptEnd (query pageContent : JSString) (pageMatchesOfPage : List Nat)
    (matchIdx : Nat) : Int :=
  _findEnd pageContent ((pageMatchesOfPage.getD matchIdx 0 : Int) + query.length)
    (nextMatchStart pageContent pageMatchesOfPage matchIdx)

/-- A page that begins with the query `aa` and holds it a second time at offset 3. -/
def twoMatchSource : Source :=
  { query := utf16 "aa"
    _pageContents := [utf16 "aa aa"]
    _pageMatches := [some [0, 3]]
    _dirtyMatch := false }

/-- A snapshot of two pages in which only page 1 is searched. -/
def lateSource : Source :=
  { query := utf16 "a"
    _pageContents := [utf16 "a", utf16 "b a"]
    _pageMatches := [none, some [2]]
    _dirtyMatch := false }

/-- The snapshot `lateSource` once page 0 is searched as well. -/
def lateSourceDone : Source :=
  { query := utf16 "a"
    _pageContents := [utf16 "a", utf16 "b a"]
    _pageMatches := [some [0], some [2]]
    _dirtyMatch := false }

/-- The snapshot `sampleSource` with a fourth page. -/
def sampleSourceGrown : Source :=
  { query := utf16 "test"
    _pageContents :=
      [utf16 "Hello world. This is a test sentence.", utf16 "nothing here",
        utf16 "a test <b> & test", utf16 "last test"]
    _pageMatches := [some [23], some [], some [2, 13], some [5]]
    _dirtyMatch := false }

/-! ## Sequences of matches-updated notifications -/

/-- The viewer state after a sequence of matches-updated notifications, first to last. -/
def matchesAll (v : Viewer) (sources : List Source) : Viewer :=
  sources.foldl (fun v source => (_onUpdateFindMatchesCount source v).state) v

/-- Every page rendered by the notification (unflagged before, flagged after) has a greater
index than every page flagged before it.  Only pages below the number of page texts are
visited, and no flag is set past the end of the flag array. -/
def ArrivesAscending (v : Viewer) (source : Source) : Prop :=
  ∀ p < source._pageContents.length, ∀ q < v.pageMatches.length,
    flag v.pageMatches q = true → flag v.pageMatches p = false →
    flag (_onUpdateFindMatchesCount source v).state.pageMatches p = true → q < p

instance (v : Viewer) (source : Source) : Decidable (ArrivesAscending v source) := by
  unfold ArrivesAscending
  infer_instance

/-- The match data arrive in ascending page order along the whole sequence. -/
def AscendingArrival : Viewer → List Source → Prop
  | _, [] => True
  | v, source :: rest =>
    ArrivesAscending v source ∧ AscendingArrival (_onUpdateFindMatchesCount source v).state rest

/-- The display lists the pages flagged as rendered, in strictly ascending page order. -/
def Ascending (v : Viewer) : Prop :=
  List.Pairwise (fun a b => a < b) (displayedPages v) ∧
    ∀ p, p ∈ displayedPages v ↔ flag v.pageMatches p = true

/-- A snapshot of two pages in which only page 0 is searched. -/
def earlySource : Source :=
  { query := utf16 "a"
    _pageContents := [utf16 "a", utf16 "b a"]
    _pageMatches := [some [0], none]
    _dirtyMatch := false }

/-! ## Vocabulary of the statements about the viewer -/

/-- The loop body passes over page `pageIdx`: the page is flagged as rendered, or the
snapshot holds no match list for it. -/
def Skips (source : Source) (v : Viewer) (pageIdx : Nat) : Prop :=
  flag v.pageMatches pageIdx = true ∨ (source._pageMatches[pageIdx]?).join = none

/-- The display holds at most one block per page, and only blocks of pages flagged as
rendered. -/
def Consistent (v : Viewer) : Prop :=
  (displayedPages v).Nodup ∧ ∀ p ∈ displayedPages v, flag v.pageMatches p = true

/-- Every page flagged as rendered has a block in the display. -/
def Shown (v : Viewer) : Prop :=
  ∀ p, flag v.pageMatches p = true → p ∈ displayedPages v

/-- The display holds exactly one block for each page flagged as rendered and no other
block. -/
def ExactlyRendered (v : Viewer) : Prop :=
  (displayedPages v).Nodup ∧ ∀ p, p ∈ displayedPages v ↔ flag v.pageMatches p = true

/-! ## Vocabulary of the statements about excerpt boundaries -/

/-- JavaScript `s.charAt(i)` as an optional code unit: nothing outside `[0, length)`. -/
def charAt (s : JSString) (i : Int) : Option CodeUnit :=
  if i < 0 then none else s[i.toNat]?

/-- A character of the punctuation set stands at index `i` of the text. -/
def punctuationAt (pageText : JSString) (i : Int) : Prop :=
  ∃ c, charAt pageText i = some c ∧ c ∈ PUNCTUATIONS

instance (pageText : JSString) (i : Int) : Decidable (punctuationAt pageText i) :=
  match h : charAt pageText i with
  | none => isFalse (by
      rintro ⟨c, hc, _⟩
      rw [h] at hc
      cases hc)
  | some c =>
    if hm : c ∈ PUNCTUATIONS then isTrue ⟨c, h, hm⟩
    else isFalse (by
      rintro ⟨d, hd, hd2⟩
      rw [h] at hd
      cases hd
      exact hm hd2)

/-- Index `i` holds a punctuation character, lies in `[lowerBound, matchStart)` and the excerpt
starting right after it is at most `MATCH_EXTENT` long. -/
def startCandidate (pageText : JSString) (matchStart lowerBound i : Int) : Prop :=
  lowerBound ≤ i ∧ i < matchStart ∧ matchStart - (i + 1) ≤ 30 ∧ punctuationAt pageText i

instance (pageText : JSString) (matchStart lowerBound i : Int) :
    Decidable (startCandidate pageText matchStart lowerBound i) := by
  unfold startCandidate
  infer_instance

/-- Index `i` holds a punctuation character, lies in `[matchEnd, upperBound)` and the excerpt
ending right after it is at most `MATCH_EXTENT` long. -/
def endCandidate (pageText : JSString) (matchEnd upperBound i : Int) : Prop :=
  matchEnd ≤ i ∧ i < upperBound ∧ (i + 1) - matchEnd ≤ 30 ∧ punctuationAt pageText i

instance (pageText : JSString) (matchEnd upperBound i : Int) :
    Decidable (endCandidate pageText matchEnd upperBound i) := by
  unfold endCandidate
  infer_instance

/-! ## Strings: basic facts -/

theorem utf16_PUNCTUATIONS : utf16 "。？！，；.?!.;" = PUNCTUATIONS := by decide

/-- The constant holds `.` twice; as a set it is `。 ？ ！ ， ； . ? ! ;`. -/
theorem mem_PUNCTUATIONS (c : CodeUnit) : c ∈ PUNCTUATIONS ↔ c ∈ utf16 "。？！，；.?!;" := by
  have e : utf16 "。？！，；.?!;" = [0x3002, 0xFF1F, 0xFF01, 0xFF0C, 0xFF1B, 0x2E, 0x3F, 0x21, 0x3B] := by
    decide
  rw [e]
  simp only [PUNCTUATIONS, List.mem_cons, List.mem_singleton, List.not_mem_nil, or_false]
  tauto

theorem substring_one (s : JSString) (i : Int) (h0 : 0 ≤ i) (h1 : i < s.length) :
    ∃ c, s[i.toNat]? = some c ∧ substring s i (i + 1) = [c] := by
  have hk : i.toNat < s.length := by omega
  have e1 : min (max i 0) (s.length : Int) = i := by omega
  have e2 : min (max (i + 1) 0) (s.length : Int) = i + 1 := by omega
  have e3 : min i (i + 1) = i := by omega
  have e4 : max i (i + 1) = i + 1 := by omega
  have e5 : (i + 1).toNat - i.toNat = 1 := by omega
  refine ⟨s[i.toNat], List.getElem?_eq_getElem hk, ?_⟩
  simp only [substring, e1, e2, e3, e4, e5]
  rw [List.drop_eq_getElem_cons hk]
  rfl

theorem includes_singleton (hay : JSString) (c : CodeUnit) :
    includes hay [c] = true ↔ c ∈ hay := by
  induction hay with
  | nil => simp [includes, List.isPrefixOf]
  | cons a t ih =>
    simp only [includes, List.tails, List.any_cons, Bool.or_eq_true] at ih ⊢
    rw [ih]
    have : List.isPrefixOf [c] (a :: t) = true ↔ c = a := by
      simp [List.isPrefixOf]
    rw [this, List.mem_cons]

/-! ## The backward scan of `_findStart` -/

/-- While no punctuation within the extent is met, the scan leaves `result` as it is. -/
theorem findStartLoop_skip (pc : JSString) (m lb : Int) :
    ∀ (fuel : Nat) (idx : Int) (res : Boundary),
      (∀ i, lb ≤ i → i ≤ idx → punctAt pc i = true → MATCH_EXTENT < m - (i + 1)) →
      findStartLoop pc m lb fuel idx res = res := by
  intro fuel
  induction fuel with
  | zero => intro idx res _; rfl
  | succ n ih =>
    intro idx res h
    simp only [findStartLoop]
    split_ifs with hg hp hl he
    · rfl
    · have := h idx hg le_rfl hp
      omega
    · have := h idx hg le_rfl hp
      omega
    · exact ih _ _ (fun i h1 h2 => h i h1 (by omega))
    · rfl

/-- With enough budget, the scan returns one past the smallest punctuation index within the
extent. -/
theorem findStartLoop_hit (pc : JSString) (m lb j : Int)
    (hj : punctAt pc j = true) (hlb : lb ≤ j) (hext : m - (j + 1) ≤ MATCH_EXTENT)
    (hmin : ∀ i, lb ≤ i → i < j → punctAt pc i = true → MATCH_EXTENT < m - (i + 1)) :
    ∀ (fuel : Nat) (idx : Int) (res : Boundary),
      j ≤ idx → (idx - lb + 1).toNat ≤ fuel →
      findStartLoop pc m lb fuel idx res = some (j + 1) := by
  intro fuel
  induction fuel with
  | zero => intro idx res h1 h2; omega
  | succ n ih =>
    intro idx res h1 h2
    simp only [findStartLoop]
    by_cases hij : idx = j
    · subst hij
      rw [if_pos hlb, if_pos hj, if_neg (by omega)]
      split_ifs with he
      · rfl
      · exact findStartLoop_skip pc m lb n _ _ (fun i h3 h4 => hmin i h3 (by omega))
    · have hlt : j < idx := by omega
      rw [if_pos (by omega)]
      split_ifs with hp hl he
      · simp only [MATCH_EXTENT] at *; omega
      · simp only [MATCH_EXTENT] at *; omega
      · exact ih _ _ (by omega) (by omega)
      · exact ih _ _ (by omega) (by omega)

/-- A budget that covers the remaining indices is as good as any larger one. -/
theorem findStartLoop_fuel (pc : JSString) (m lb : Int) :
    ∀ (fuel extra : Nat) (idx : Int) (res : Boundary),
      (idx - lb + 1).toNat ≤ fuel →
      findStartLoop pc m lb (fuel + extra) idx res = findStartLoop pc m lb fuel idx res := by
  intro fuel
  induction fuel with
  | zero =>
    intro extra idx res h
    cases extra with
    | zero => rfl
    | succ e =>
      simp only [findStartLoop]
      rw [if_neg (by omega)]
  | succ n ih =>
    intro extra idx res h
    rw [Nat.add_right_comm]
    simp only [findStartLoop]
    split_ifs with hg hp hl he
    · rfl
    · rfl
    · exact ih _ _ _ (by omega)
    · exact ih _ _ _ (by omega)
    · rfl

/-- The budget `_findStart` hands to its loop is enough: a larger one gives the same result. -/
theorem findStart_fuel (pc : JSString) (m lb : Int) (extra : Nat) :
    findStartLoop pc m lb ((m - lb).toNat + extra) (m - 1) none
      = findStartLoop pc m lb (m - lb).toNat (m - 1) none :=
  findStartLoop_fuel pc m lb _ extra _ _ (by omega)

/-- Every boundary the scan returns is one past a scanned index. -/
theorem findStartLoop_range (pc : JSString) (m lb : Int) :
    ∀ (fuel : Nat) (idx : Int) (res : Boundary) (r : Int),
      idx < m → (∀ r, res = some r → lb ≤ r ∧ r ≤ m) →
      findStartLoop pc m lb fuel idx res = some r → lb ≤ r ∧ r ≤ m := by
  intro fuel
  induction fuel with
  | zero => intro idx res r _ hres h; exact hres r h
  | succ n ih =>
    intro idx res r hidx hres
    simp only [findStartLoop]
    split_ifs with hg hp hl he
    · exact hres r
    · intro h
      cases h
      omega
    · exact ih _ _ r (by omega) (fun r h => by cases h; omega)
    · exact ih _ _ r (by omega) hres
    · exact hres r

theorem punctAt_iff (pc : JSString) (i : Int) (h0 : 0 ≤ i) (h1 : i < pc.length) :
    punctAt pc i = true ↔ punctuationAt pc i := by
  obtain ⟨c, hc, hs⟩ := substring_one pc i h0 h1
  have hch : charAt pc i = some c := by
    simp only [charAt]
    rw [if_neg (by omega)]
    exact hc
  simp only [punctAt, hs, includes_singleton, punctuationAt, hch]
  constructor
  · intro h
    exact ⟨c, rfl, h⟩
  · rintro ⟨d, hd, hm⟩
    cases hd
    exact hm

/-! ## `_findStart`: the contract -/

/-- C1: for every page text and all integers with `0 ≤ lowerBound ≤ matchStart ≤ length`,
`_findStart(pageText, matchStart, lowerBound)` returns a value `r` with
`lowerBound ≤ r ≤ matchStart`. -/
theorem findStart_within_bounds (pageText : JSString) (matchStart lowerBound : Int)
    (_h0 : 0 ≤ lowerBound) (h1 : lowerBound ≤ matchStart) (_h2 : matchStart ≤ pageText.length) :
    lowerBound ≤ _findStart pageText matchStart lowerBound ∧
      _findStart pageText matchStart lowerBound ≤ matchStart := by
  unfold _findStart
  cases hr : findStartLoop pageText matchStart lowerBound (matchStart - lowerBound).toNat
      (matchStart - 1) none with
  | none =>
    simp only [MATCH_EXTENT]
    omega
  | some r =>
    exact findStartLoop_range pageText matchStart lowerBound _ _ _ r (by omega)
      (fun r h => by cases h) hr

theorem findStart_within_bounds_witness :
    ((0 : Int) ≤ 3 ∧ (3 : Int) ≤ 40 ∧ (40 : Int) ≤ (List.replicate 50 (0x2E : CodeUnit)).length) ∧
      ((3 : Int) ≤ _findStart (List.replicate 50 0x2E) 40 3 ∧
        _findStart (List.replicate 50 0x2E) 40 3 ≤ 40) :=
  ⟨by decide, findStart_within_bounds (List.replicate 50 0x2E) 40 3 (by decide) (by decide)
    (by decide)⟩

/-- C3: for `0 ≤ lowerBound ≤ matchStart ≤ length`, if a punctuation character occurs at some
index `i` with `lowerBound ≤ i < matchStart` and `matchStart - (i + 1) ≤ 30`, then there is a
smallest such index `j`, `_findStart` returns `j + 1`, and the character just before the returned
start is a punctuation character. -/
theorem findStart_after_punctuation (pageText : JSString) (matchStart lowerBound : Int)
    (h0 : 0 ≤ lowerBound) (h1 : lowerBound ≤ matchStart) (h2 : matchStart ≤ pageText.length)
    (hex : ∃ i, startCandidate pageText matchStart lowerBound i) :
    ∃ j, startCandidate pageText matchStart lowerBound j ∧
      (∀ i, startCandidate pageText matchStart lowerBound i → j ≤ i) ∧
      _findStart pageText matchStart lowerBound = j + 1 ∧
      punctuationAt pageText (_findStart pageText matchStart lowerBound - 1) := by
  obtain ⟨j, hj, hmin⟩ := Int.exists_least_of_bdd
    (P := startCandidate pageText matchStart lowerBound) ⟨lowerBound, fun z hz => hz.1⟩ hex
  have hval : _findStart pageText matchStart lowerBound = j + 1 := by
    obtain ⟨hj1, hj2, hj3, hj4⟩ := hj
    have hloop := findStartLoop_hit pageText matchStart lowerBound j
      ((punctAt_iff pageText j (by omega) (by omega)).2 hj4) hj1
      (by simp only [MATCH_EXTENT]; omega)
      (fun i hi1 hi2 hp => by
        simp only [MATCH_EXTENT]
        by_contra hc
        have := hmin i ⟨hi1, by omega, by omega,
          (punctAt_iff pageText i (by omega) (by omega)).1 hp⟩
        omega)
      (matchStart - lowerBound).toNat (matchStart - 1) none (by omega) (by omega)
    simp only [_findStart, hloop]
  refine ⟨j, hj, hmin, hval, ?_⟩
  rw [hval]
  have : j + 1 - 1 = j := by omega
  rw [this]
  exact hj.2.2.2

theorem findStart_after_punctuation_witness :
    ((0 : Int) ≤ 0 ∧ (0 : Int) ≤ 21 ∧
        (21 : Int) ≤ (utf16 "Hello world. This is a test sentence.").length ∧
        ∃ i, startCandidate (utf16 "Hello world. This is a test sentence.") 21 0 i) ∧
      ∃ j, startCandidate (utf16 "Hello world. This is a test sentence.") 21 0 j ∧
        (∀ i, startCandidate (utf16 "Hello world. This is a test sentence.") 21 0 i → j ≤ i) ∧
        _findStart (utf16 "Hello world. This is a test sentence.") 21 0 = j + 1 ∧
        punctuationAt (utf16 "Hello world. This is a test sentence.")
          (_findStart (utf16 "Hello world. This is a test sentence.") 21 0 - 1) :=
  ⟨⟨by decide, by decide, by decide, 11, by decide, by decide, by decide, by decide⟩,
    findStart_after_punctuation (utf16 "Hello world. This is a test sentence.") 21 0
      (by decide) (by decide) (by decide) ⟨11, by decide, by decide, by decide, by decide⟩⟩

/-- C4: for `0 ≤ lowerBound ≤ matchStart ≤ length`, if no punctuation character occurs at any
index `i` with `lowerBound ≤ i < matchStart` and `matchStart - (i + 1) ≤ 30`, `_findStart`
returns exactly `max(lowerBound, matchStart - 30)`. -/
theorem findStart_fallback (pageText : JSString) (matchStart lowerBound : Int)
    (h0 : 0 ≤ lowerBound) (_h1 : lowerBound ≤ matchStart) (h2 : matchStart ≤ pageText.length)
    (hno : ∀ i, ¬ startCandidate pageText matchStart lowerBound i) :
    _findStart pageText matchStart lowerBound = max lowerBound (matchStart - 30) := by
  have hloop := findStartLoop_skip pageText matchStart lowerBound
    (matchStart - lowerBound).toNat (matchStart - 1) none
    (fun i hi1 hi2 hp => by
      simp only [MATCH_EXTENT]
      by_contra hc
      exact hno i ⟨hi1, by omega, by omega,
        (punctAt_iff pageText i (by omega) (by omega)).1 hp⟩)
  simp only [_findStart, hloop, MATCH_EXTENT]

theorem findStart_fallback_witness :
    ((0 : Int) ≤ 0 ∧ (0 : Int) ≤ 40 ∧
        (40 : Int) ≤ (utf16 "Intro. The quick brown fox jumps over the lazy dog").length ∧
        ∀ i, ¬ startCandidate (utf16 "Intro. The quick brown fox jumps over the lazy dog") 40 0 i) ∧
      _findStart (utf16 "Intro. The quick brown fox jumps over the lazy dog") 40 0
        = max 0 (40 - 30) :=
  have hno : ∀ i,
      ¬ startCandidate (utf16 "Intro. The quick brown fox jumps over the lazy dog") 40 0 i :=
    fun i hc => by
      have hb : ∀ n : Nat, n < 40 →
          ¬ startCandidate (utf16 "Intro. The quick brown fox jumps over the lazy dog") 40 0
            (n : Int) := by decide
      have h := hb i.toNat (by have := hc.1; have := hc.2.1; omega)
      rw [Int.toNat_of_nonneg hc.1] at h
      exact h hc
  ⟨⟨by decide, by decide, by decide, hno⟩,
    findStart_fallback (utf16 "Intro. The quick brown fox jumps over the lazy dog") 40 0
      (by decide) (by decide) (by decide) hno⟩

/-! ## The forward scan of `_findEnd` -/

/-- While no punctuation within the extent is met, the scan leaves `result` as it is. -/
theorem findEndLoop_skip (pc : JSString) (me ub : Int) :
    ∀ (fuel : Nat) (idx : Int) (res : Boundary),
      (∀ i, idx ≤ i → i < ub → punctAt pc i = true → MATCH_EXTENT < i + 1 - me) →
      findEndLoop pc me ub fuel idx res = res := by
  intro fuel
  induction fuel with
  | zero => intro idx res _; rfl
  | succ n ih =>
    intro idx res h
    simp only [findEndLoop]
    split_ifs with hg hp hl he
    · rfl
    · have := h idx le_rfl hg hp
      omega
    · have := h idx le_rfl hg hp
      omega
    · exact ih _ _ (fun i h1 h2 => h i (by omega) h2)
    · rfl

/-- With enough budget, the scan returns one past the largest punctuation index within the
extent. -/
theorem findEndLoop_hit (pc : JSString) (me ub j : Int)
    (hj : punctAt pc j = true) (hub : j < ub) (hext : j + 1 - me ≤ MATCH_EXTENT)
    (hmax : ∀ i, j < i → i < ub → punctAt pc i = true → MATCH_EXTENT < i + 1 - me) :
    ∀ (fuel : Nat) (idx : Int) (res : Boundary),
      idx ≤ j → (ub - idx).toNat ≤ fuel →
      findEndLoop pc me ub fuel idx res = some (j + 1) := by
  intro fuel
  induction fuel with
  | zero => intro idx res h1 h2; omega
  | succ n ih =>
    intro idx res h1 h2
    simp only [findEndLoop]
    by_cases hij : idx = j
    · subst hij
      rw [if_pos hub, if_pos hj, if_neg (by omega)]
      split_ifs with he
      · rfl
      · exact findEndLoop_skip pc me ub n _ _ (fun i h3 h4 => hmax i (by omega) h4)
    · have hlt : idx < j := by omega
      rw [if_pos (by omega)]
      split_ifs with hp hl he
      · simp only [MATCH_EXTENT] at *; omega
      · simp only [MATCH_EXTENT] at *; omega
      · exact ih _ _ (by omega) (by omega)
      · exact ih _ _ (by omega) (by omega)

/-- A budget that covers the remaining indices is as good as any larger one. -/
theorem findEndLoop_fuel (pc : JSString) (me ub : Int) :
    ∀ (fuel extra : Nat) (idx : Int) (res : Boundary),
      (ub - idx).toNat ≤ fuel →
      findEndLoop pc me ub (fuel + extra) idx res = findEndLoop pc me ub fuel idx res := by
  intro fuel
  induction fuel with
  | zero =>
    intro extra idx res h
    cases extra with
    | zero => rfl
    | succ e =>
      simp only [findEndLoop]
      rw [if_neg (by omega)]
  | succ n ih =>
    intro extra idx res h
    rw [Nat.add_right_comm]
    simp only [findEndLoop]
    split_ifs with hg hp hl he
    · rfl
    · rfl
    · exact ih _ _ _ (by omega)
    · exact ih _ _ _ (by omega)
    · rfl

/-- The budget `_findEnd` hands to its loop is enough: a larger one gives the same result. -/
theorem findEnd_fuel (pc : JSString) (me ub : Int) (extra : Nat) :
    findEndLoop pc me ub ((ub - me).toNat + extra) me none
      = findEndLoop pc me ub (ub - me).toNat me none :=
  findEndLoop_fuel pc me ub _ extra _ _ (by omega)

/-- Every boundary the scan returns is one past a scanned index. -/
theorem findEndLoop_range (pc : JSString) (me ub : Int) :
    ∀ (fuel : Nat) (idx : Int) (res : Boundary) (r : Int),
      me ≤ idx → (∀ r, res = some r → me ≤ r ∧ r ≤ ub) →
      findEndLoop pc me ub fuel idx res = some r → me ≤ r ∧ r ≤ ub := by
  intro fuel
  induction fuel with
  | zero => intro idx res r _ hres h; exact hres r h
  | succ n ih =>
    intro idx res r hidx hres
    simp only [findEndLoop]
    split_ifs with hg hp hl he
    · exact hres r
    · intro h
      cases h
      omega
    · exact ih _ _ r (by omega) (fun r h => by cases h; omega)
    · exact ih _ _ r (by omega) hres
    · exact hres r

/-! ## `_findEnd`: the contract -/

/-- C2: for every page text and all integers with `0 ≤ matchEnd ≤ upperBound ≤ length`,
`_findEnd(pageText, matchEnd, upperBound)` returns a value `r` with
`matchEnd ≤ r ≤ upperBound`. -/
theorem findEnd_within_bounds (pageText : JSString) (matchEnd upperBound : Int)
    (_h0 : 0 ≤ matchEnd) (h1 : matchEnd ≤ upperBound) (_h2 : upperBound ≤ pageText.length) :
    matchEnd ≤ _findEnd pageText matchEnd upperBound ∧
      _findEnd pageText matchEnd upperBound ≤ upperBound := by
  unfold _findEnd
  cases hr : findEndLoop pageText matchEnd upperBound (upperBound - matchEnd).toNat
      matchEnd none with
  | none =>
    simp only [MATCH_EXTENT]
    omega
  | some r =>
    exact findEndLoop_range pageText matchEnd upperBound _ _ _ r le_rfl
      (fun r h => by cases h) hr

theorem findEnd_within_bounds_witness :
    ((0 : Int) ≤ 5 ∧ (5 : Int) ≤ 45 ∧ (45 : Int) ≤ (List.replicate 50 (0x3B : CodeUnit)).length) ∧
      ((5 : Int) ≤ _findEnd (List.replicate 50 0x3B) 5 45 ∧
        _findEnd (List.replicate 50 0x3B) 5 45 ≤ 45) :=
  ⟨by decide, findEnd_within_bounds (List.replicate 50 0x3B) 5 45 (by decide) (by decide)
    (by decide)⟩

/-- C5: `_findEnd` mirrors `_findStart` with the same acceptance rule: for
`0 ≤ matchEnd ≤ upperBound ≤ length`, if a punctuation character occurs at some index `i` with
`matchEnd ≤ i < upperBound` and `(i + 1) - matchEnd ≤ 30`, then there is a largest such index
`j`, `_findEnd` returns `j + 1`, and the excerpt ends just after a punctuation character. -/
theorem findEnd_after_punctuation (pageText : JSString) (matchEnd upperBound : Int)
    (h0 : 0 ≤ matchEnd) (_h1 : matchEnd ≤ upperBound) (h2 : upperBound ≤ pageText.length)
    (hex : ∃ i, endCandidate pageText matchEnd upperBound i) :
    ∃ j, endCandidate pageText matchEnd upperBound j ∧
      (∀ i, endCandidate pageText matchEnd upperBound i → i ≤ j) ∧
      _findEnd pageText matchEnd upperBound = j + 1 ∧
      punctuationAt pageText (_findEnd pageText matchEnd upperBound - 1) := by
  obtain ⟨j, hj, hmax⟩ := Int.exists_greatest_of_bdd
    (P := endCandidate pageText matchEnd upperBound) ⟨upperBound, fun z hz => le_of_lt hz.2.1⟩ hex
  have hval : _findEnd pageText matchEnd upperBound = j + 1 := by
    obtain ⟨hj1, hj2, hj3, hj4⟩ := hj
    have hloop := findEndLoop_hit pageText matchEnd upperBound j
      ((punctAt_iff pageText j (by omega) (by omega)).2 hj4) hj2
      (by simp only [MATCH_EXTENT]; omega)
      (fun i hi1 hi2 hp => by
        simp only [MATCH_EXTENT]
        by_contra hc
        have := hmax i ⟨by omega, hi2, by omega,
          (punctAt_iff pageText i (by omega) (by omega)).1 hp⟩
        omega)
      (upperBound - matchEnd).toNat matchEnd none hj1 le_rfl
    simp only [_findEnd, hloop]
  refine ⟨j, hj, hmax, hval, ?_⟩
  rw [hval]
  have : j + 1 - 1 = j := by omega
  rw [this]
  exact hj.2.2.2

theorem findEnd_after_punctuation_witness :
    ((0 : Int) ≤ 16 ∧ (16 : Int) ≤ 42 ∧
        (42 : Int) ≤ (utf16 "Hello world. This is a test; it ends here.").length ∧
        ∃ i, endCandidate (utf16 "Hello world. This is a test; it ends here.") 16 42 i) ∧
      ∃ j, endCandidate (utf16 "Hello world. This is a test; it ends here.") 16 42 j ∧
        (∀ i, endCandidate (utf16 "Hello world. This is a test; it ends here.") 16 42 i → i ≤ j) ∧
        _findEnd (utf16 "Hello world. This is a test; it ends here.") 16 42 = j + 1 ∧
        punctuationAt (utf16 "Hello world. This is a test; it ends here.")
          (_findEnd (utf16 "Hello world. This is a test; it ends here.") 16 42 - 1) :=
  ⟨⟨by decide, by decide, by decide, 27, by decide⟩,
    findEnd_after_punctuation (utf16 "Hello world. This is a test; it ends here.") 16 42
      (by decide) (by decide) (by decide) ⟨27, by decide⟩⟩

/-- C6: for `0 ≤ matchEnd ≤ upperBound ≤ length`, if no punctuation character occurs at any
index `i` with `matchEnd ≤ i < upperBound` and `(i + 1) - matchEnd ≤ 30`, `_findEnd` returns
exactly `min(upperBound, matchEnd + 30)`. -/
theorem findEnd_fallback (pageText : JSString) (matchEnd upperBound : Int)
    (h0 : 0 ≤ matchEnd) (_h1 : matchEnd ≤ upperBound) (h2 : upperBound ≤ pageText.length)
    (hno : ∀ i, ¬ endCandidate pageText matchEnd upperBound i) :
    _findEnd pageText matchEnd upperBound = min upperBound (matchEnd + 30) := by
  have hloop := findEndLoop_skip pageText matchEnd upperBound
    (upperBound - matchEnd).toNat matchEnd none
    (fun i hi1 hi2 hp => by
      simp only [MATCH_EXTENT]
      by_contra hc
      exact hno i ⟨hi1, hi2, by omega,
        (punctAt_iff pageText i (by omega) (by omega)).1 hp⟩)
  simp only [_findEnd, hloop, MATCH_EXTENT]

theorem findEnd_fallback_witness :
    ((0 : Int) ≤ 25 ∧ (25 : Int) ≤ 64 ∧
        (64 : Int) ≤
          (utf16 "Hello world. This is a test sentence for matching purposes here.").length ∧
        ∀ i, ¬ endCandidate
          (utf16 "Hello world. This is a test sentence for matching purposes here.") 25 64 i) ∧
      _findEnd (utf16 "Hello world. This is a test sentence for matching purposes here.") 25 64
        = min 64 (25 + 30) :=
  have hno : ∀ i, ¬ endCandidate
      (utf16 "Hello world. This is a test sentence for matching purposes here.") 25 64 i :=
    fun i hc => by
      have hb : ∀ n : Nat, n < 64 → ¬ endCandidate
          (utf16 "Hello world. This is a test sentence for matching purposes here.") 25 64
            (n : Int) := by decide
      have h := hb i.toNat (by have := hc.1; have := hc.2.1; omega)
      rw [Int.toNat_of_nonneg (by have := hc.1; omega)] at h
      exact h hc
  ⟨⟨by decide, by decide, by decide, hno⟩,
    findEnd_fallback (utf16 "Hello world. This is a test sentence for matching purposes here.")
      25 64 (by decide) (by decide) (by decide) hno⟩

/-! ## `_escapeHtml` -/

theorem utf16_amp : utf16 "&amp;" = [38, 97, 109, 112, 59] := by decide
theorem utf16_lt : utf16 "&lt;" = [38, 108, 116, 59] := by decide
theorem utf16_gt : utf16 "&gt;" = [38, 103, 116, 59] := by decide
theorem utf16_quot : utf16 "&quot;" = [38, 113, 117, 111, 116, 59] := by decide
theorem utf16_apos : utf16 "&#039;" = [38, 35, 48, 51, 57, 59] := by decide

theorem replaceAll_flatMap (c : CodeUnit) (rep : JSString) (f : CodeUnit → JSString)
    (s : JSString) :
    replaceAll c rep (s.flatMap f) = s.flatMap (fun x => replaceAll c rep (f x)) := by
  simp only [replaceAll, List.flatMap_assoc]

theorem escapeHtml_singleton (c : CodeUnit) : _escapeHtml [c] = escapeChar c := by
  simp only [_escapeHtml, escapeChar, replaceAll, utf16_amp, utf16_lt, utf16_gt, utf16_quot,
    utf16_apos, ampersand, lessThan, greaterThan, doubleQuote, singleQuote]
  by_cases h1 : c = 38
  · subst h1; decide
  by_cases h2 : c = 60
  · subst h2; decide
  by_cases h3 : c = 62
  · subst h3; decide
  by_cases h4 : c = 34
  · subst h4; decide
  by_cases h5 : c = 39
  · subst h5; decide
  simp [h1, h2, h3, h4, h5]

/-- The five sequential replacements amount to one character-wise substitution. -/
theorem escapeHtml_eq_flatMap (s : JSString) : _escapeHtml s = s.flatMap escapeChar := by
  have h : escapeChar = fun c => _escapeHtml [c] :=
    funext fun c => (escapeHtml_singleton c).symm
  rw [h]
  conv_lhs => rw [← List.flatMap_singleton' s]
  simp only [_escapeHtml, replaceAll_flatMap]

theorem escapeChar_clean (x c : CodeUnit) (h : c ∈ escapeChar x) :
    c ≠ lessThan ∧ c ≠ greaterThan ∧ c ≠ doubleQuote ∧ c ≠ singleQuote := by
  simp only [escapeChar, utf16_amp, utf16_lt, utf16_gt, utf16_quot, utf16_apos, ampersand,
    lessThan, greaterThan, doubleQuote, singleQuote] at h ⊢
  split_ifs at h <;> simp only [List.mem_cons, List.mem_singleton, List.not_mem_nil,
    or_false] at h <;> refine ⟨?_, ?_, ?_, ?_⟩ <;> rintro rfl <;> simp_all

theorem escapeChar_ampersand (x : CodeUnit) (i : Nat)
    (h : (escapeChar x)[i]? = some ampersand) : i = 0 ∧ escapeChar x ∈ entities := by
  simp only [escapeChar, entities, utf16_amp, utf16_lt, utf16_gt, utf16_quot, utf16_apos,
    ampersand, lessThan, greaterThan, doubleQuote, singleQuote] at h ⊢
  split_ifs at h ⊢ <;> rcases i with _ | _ | _ | _ | _ | _ | i <;> simp_all

theorem flatMap_escapeChar_ampersand :
    ∀ (s : JSString) (i : Nat), (s.flatMap escapeChar)[i]? = some ampersand →
      ∃ e ∈ entities, e <+: (s.flatMap escapeChar).drop i
  | [], i, h => by simp at h
  | x :: t, i, h => by
    rw [List.flatMap_cons] at h ⊢
    by_cases hi : i < (escapeChar x).length
    · rw [List.getElem?_append_left hi] at h
      obtain ⟨rfl, he⟩ := escapeChar_ampersand x i h
      exact ⟨_, he, by simp⟩
    · rw [List.getElem?_append_right (by omega)] at h
      obtain ⟨e, he, hp⟩ := flatMap_escapeChar_ampersand t _ h
      refine ⟨e, he, ?_⟩
      rw [List.drop_append_eq_append_drop, List.drop_eq_nil_of_le (by omega), List.nil_append]
      exact hp

/-- C7: for every input string, `_escapeHtml(s)` contains none of the characters
`<`, `>`, double quote and single quote, and every `&` in it is the first character of one of
the five entities `&amp;` `&lt;` `&gt;` `&quot;` `&#039;`. -/
theorem escapeHtml_no_markup (s : JSString) :
    (∀ c ∈ _escapeHtml s,
        c ≠ lessThan ∧ c ≠ greaterThan ∧ c ≠ doubleQuote ∧ c ≠ singleQuote) ∧
      (∀ i : Nat, (_escapeHtml s)[i]? = some ampersand →
        ∃ e ∈ entities, e <+: (_escapeHtml s).drop i) := by
  rw [escapeHtml_eq_flatMap]
  constructor
  · intro c hc
    obtain ⟨x, _, hx⟩ := List.mem_flatMap.1 hc
    exact escapeChar_clean x c hx
  · exact flatMap_escapeChar_ampersand s

theorem escapeHtml_sample :
    _escapeHtml (utf16 "<b> & 'x' \"y\"")
      = utf16 "&lt;b&gt; &amp; &#039;x&#039; &quot;y&quot;" := by
  decide

/-! ## Rendered flags -/

theorem flag_eq (pm : List Bool) (j : Nat) : flag pm j = (pm[j]?).getD false := by
  simp [flag, List.getD_eq_getElem?_getD]

theorem flag_setFlag (pm : List Bool) (i j : Nat) :
    flag (setFlag pm i) j = (decide (j = i) || flag pm j) := by
  simp only [flag_eq, setFlag]
  split_ifs with h
  · rw [List.getElem?_set]
    by_cases hji : j = i
    · subst hji
      simp [h]
    · have : ¬ i = j := fun e => hji e.symm
      simp [hji, this]
  · by_cases h1 : j < pm.length
    · have hji : j ≠ i := by omega
      rw [List.append_assoc, List.getElem?_append_left h1]
      simp [hji]
    · rw [List.append_assoc, List.getElem?_append_right (by omega)]
      rw [List.getElem?_eq_none (l := pm) (by omega)]
      by_cases h2 : j - pm.length < i - pm.length
      · have hji : j ≠ i := by omega
        rw [List.getElem?_append_left (by simpa using h2)]
        simp [hji, h2]
      · rw [List.getElem?_append_right (by simpa using h2)]
        simp only [List.length_replicate]
        by_cases hji : j = i
        · subst hji
          simp
        · have : j - pm.length - (i - pm.length) ≠ 0 := by omega
          obtain ⟨k, hk⟩ := Nat.exists_eq_succ_of_ne_zero this
          simp [hji, hk]

theorem flag_setFlag_self (pm : List Bool) (i : Nat) : flag (setFlag pm i) i = true := by
  simp [flag_setFlag]

theorem flag_setFlag_of_ne (pm : List Bool) (i j : Nat) (h : j ≠ i) :
    flag (setFlag pm i) j = flag pm j := by
  simp [flag_setFlag, h]

theorem flag_setFlag_mono (pm : List Bool) (i j : Nat) (h : flag pm j = true) :
    flag (setFlag pm i) j = true := by
  simp [flag_setFlag, h]

theorem findPrevPageMatch_some (pm : List Bool) :
    ∀ (pageIdx prev : Nat), _findPrevPageMatch pm pageIdx = some prev →
      prev < pageIdx ∧ flag pm prev = true ∧ ∀ k, prev < k → k < pageIdx → flag pm k = false
  | 0, prev, h => by simp [_findPrevPageMatch] at h
  | idx + 1, prev, h => by
    simp only [_findPrevPageMatch] at h
    split_ifs at h with hf
    · cases h
      exact ⟨by omega, hf, fun k h1 h2 => by omega⟩
    · obtain ⟨h1, h2, h3⟩ := findPrevPageMatch_some pm idx prev h
      refine ⟨by omega, h2, fun k hk1 hk2 => ?_⟩
      by_cases hk : k = idx
      · subst hk
        simpa using hf
      · exact h3 k hk1 (by omega)

theorem findPrevPageMatch_none (pm : List Bool) :
    ∀ (pageIdx : Nat), _findPrevPageMatch pm pageIdx = none →
      ∀ k, k < pageIdx → flag pm k = false
  | 0, _, k, hk => by omega
  | idx + 1, h, k, hk => by
    simp only [_findPrevPageMatch] at h
    split_ifs at h with hf
    by_cases hki : k = idx
    · subst hki
      simpa using hf
    · exact findPrevPageMatch_none pm idx h k (by omega)

/-! ## One pass of the loop body -/

/-- The four ways through the loop body. -/
theorem renderPage_cases (source : Source) (v : Viewer) (p : Nat) :
    (Skips source v p ∧ renderPage source v p = .done v) ∨
    ∃ m, flag v.pageMatches p = false ∧ (source._pageMatches[p]?).join = some m ∧
      ((_findPrevPageMatch v.pageMatches p = none ∧
          renderPage source v p = .done
            { pageMatches := setFlag v.pageMatches p
              container := v.container ++ [buildPageDiv source p m] }) ∨
        (∃ prev, _findPrevPageMatch v.pageMatches p = some prev ∧
          getElementById v.container prev = none ∧ renderPage source v p = .threw v) ∨
        (∃ prev ref, _findPrevPageMatch v.pageMatches p = some prev ∧
          getElementById v.container prev = some ref ∧
          renderPage source v p = .done
            { pageMatches := setFlag v.pageMatches p
              container := _insertAfter v.container (buildPageDiv source p m) ref })) := by
  unfold renderPage Skips
  by_cases hf : flag v.pageMatches p = true
  · left
    simp [hf]
  · have hf' : flag v.pageMatches p = false := by simpa using hf
    cases hm : (source._pageMatches[p]?).join with
    | none =>
      left
      simp [hf']
    | some m =>
      right
      refine ⟨m, hf', rfl, ?_⟩
      cases hp : _findPrevPageMatch v.pageMatches p with
      | none =>
        left
        simp [hf']
      | some prev =>
        right
        cases hg : getElementById v.container prev with
        | none =>
          left
          exact ⟨prev, rfl, hg, by simp [hf', hg]⟩
        | some ref =>
          right
          exact ⟨prev, ref, rfl, hg, by simp [hf', hg]⟩

theorem getElementById_isSome (c : List PageDiv) (p : Nat) :
    (getElementById c p).isSome = true ↔ p ∈ c.map (fun d => d.id) := by
  simp only [getElementById, List.findIdx?_isSome, List.any_eq_true, List.mem_map, beq_iff_eq]

theorem displayedPages_insertAfter (c : List PageDiv) (d : PageDiv) (ref : Nat) :
    List.Perm (displayedPages { pageMatches := [], container := _insertAfter c d ref })
      (d.id :: c.map (fun d => d.id)) := by
  simp only [displayedPages, _insertAfter, List.map_append, List.map_cons]
  refine List.perm_middle.trans ?_
  rw [← List.map_append, List.take_append_drop]

/-- What a pass that renders page `p` does to the flags and to the display. -/
theorem renderPage_done (source : Source) (v v' : Viewer) (p : Nat)
    (h : renderPage source v p = .done v') :
    (v' = v ∧ Skips source v p) ∨
    ∃ m, flag v.pageMatches p = false ∧ (source._pageMatches[p]?).join = some m ∧
      v'.pageMatches = setFlag v.pageMatches p ∧
      List.Perm (displayedPages v') (p :: displayedPages v) ∧
      buildPageDiv source p m ∈ v'.container ∧ ∀ d ∈ v.container, d ∈ v'.container := by
  rcases renderPage_cases source v p with ⟨hs, hr⟩ | ⟨m, hf, hm, hr | hr | hr⟩
  · rw [hr] at h
    cases h
    exact Or.inl ⟨rfl, hs⟩
  · obtain ⟨_, hr⟩ := hr
    rw [hr] at h
    cases h
    refine Or.inr ⟨m, hf, hm, rfl, ?_, by simp, fun d hd => by simp [hd]⟩
    simp only [displayedPages, List.map_append, List.map_cons, List.map_nil]
    exact List.perm_append_singleton _ _
  · obtain ⟨prev, _, _, hr⟩ := hr
    rw [hr] at h
    cases h
  · obtain ⟨prev, ref, _, _, hr⟩ := hr
    rw [hr] at h
    cases h
    refine Or.inr ⟨m, hf, hm, rfl, displayedPages_insertAfter _ _ _, ?_, fun d hd => ?_⟩
    · simp [_insertAfter]
    · have : d ∈ v.container.take (ref + 1) ++ v.container.drop (ref + 1) := by
        rw [List.take_append_drop]
        exact hd
      simp only [_insertAfter, List.mem_append, List.mem_cons] at this ⊢
      tauto

theorem renderPage_threw (source : Source) (v v' : Viewer) (p : Nat)
    (h : renderPage source v p = .threw v') :
    v' = v ∧ ¬ Skips source v p ∧ ¬ Shown v := by
  rcases renderPage_cases source v p with ⟨hs, hr⟩ | ⟨m, hf, hm, hr | hr | hr⟩
  · rw [hr] at h
    cases h
  · obtain ⟨_, hr⟩ := hr
    rw [hr] at h
    cases h
  · obtain ⟨prev, hp, hg, hr⟩ := hr
    rw [hr] at h
    cases h
    refine ⟨rfl, ?_, fun hs => ?_⟩
    · rintro (h1 | h1)
      · rw [hf] at h1
        cases h1
      · rw [hm] at h1
        cases h1
    · have h1 := hs prev (findPrevPageMatch_some _ _ _ hp).2.1
      have h2 := (getElementById_isSome v.container prev).2 h1
      rw [hg] at h2
      cases h2
  · obtain ⟨prev, ref, _, _, hr⟩ := hr
    rw [hr] at h
    cases h

theorem renderPage_skips (source : Source) (v v' : Viewer) (p : Nat)
    (h : renderPage source v p = .done v') :
    Skips source v' p ∧ ∀ q, Skips source v q → Skips source v' q := by
  rcases renderPage_done source v v' p h with ⟨rfl, hs⟩ | ⟨m, _, _, hpm, _⟩
  · exact ⟨hs, fun q hq => hq⟩
  · refine ⟨Or.inl (by rw [hpm]; exact flag_setFlag_self _ _), fun q hq => ?_⟩
    rcases hq with hq | hq
    · exact Or.inl (by rw [hpm]; exact flag_setFlag_mono _ _ _ hq)
    · exact Or.inr hq

theorem renderPage_consistent (source : Source) (v v' : Viewer) (p : Nat)
    (hc : Consistent v) (h : renderPage source v p = .done v') : Consistent v' := by
  rcases renderPage_done source v v' p h with ⟨rfl, _⟩ | ⟨m, hf, _, hpm, hperm, _⟩
  · exact hc
  · have hnot : p ∉ displayedPages v := fun hin => by
      have := hc.2 p hin
      rw [hf] at this
      cases this
    refine ⟨(hperm.nodup_iff).2 (List.nodup_cons.2 ⟨hnot, hc.1⟩), fun q hq => ?_⟩
    rw [hpm]
    rcases List.mem_cons.1 ((hperm.mem_iff).1 hq) with rfl | hq
    · exact flag_setFlag_self _ _
    · exact flag_setFlag_mono _ _ _ (hc.2 q hq)

/-! ## The loop over the pages -/

theorem pagesLoop_skipped (source : Source) (ps : List Nat) :
    ∀ (skipped : List Nat) (v : Viewer), (∀ q ∈ skipped, Skips source v q) →
      pagesLoop source (skipped ++ ps) v = pagesLoop source ps v
  | [], _, _ => rfl
  | q :: rest, v, h => by
    have hq : renderPage source v q = .done v := by
      rcases renderPage_cases source v q with ⟨_, hr⟩ | ⟨m, hf, hm, _⟩
      · exact hr
      · rcases h q (List.mem_cons_self _ _) with h1 | h1
        · rw [hf] at h1
          cases h1
        · rw [hm] at h1
          cases h1
    simp only [List.cons_append, pagesLoop, hq]
    exact pagesLoop_skipped source ps rest v
      (fun r hr => h r (List.mem_cons_of_mem _ hr))

/-- Running the loop again over pages already passed and the pages just visited changes
nothing, whether the first run ended normally or by throwing. -/
theorem pagesLoop_settled (source : Source) :
    ∀ (ps skipped : List Nat) (v : Viewer), (∀ q ∈ skipped, Skips source v q) →
      pagesLoop source (skipped ++ ps) (pagesLoop source ps v).state = pagesLoop source ps v
  | [], skipped, v, h => by
    simp only [pagesLoop, Outcome.state]
    exact pagesLoop_skipped source [] skipped v h
  | p :: ps, skipped, v, h => by
    cases hr : renderPage source v p with
    | threw v' =>
      obtain ⟨rfl, _⟩ := renderPage_threw source v v' p hr
      have e : pagesLoop source (p :: ps) v' = .threw v' := by
        simp only [pagesLoop, hr]
      rw [e]
      simp only [Outcome.state]
      rw [pagesLoop_skipped source (p :: ps) skipped v' h, e]
    | done v' =>
      have e : pagesLoop source (p :: ps) v = pagesLoop source ps v' := by
        simp only [pagesLoop, hr]
      rw [e]
      have hs := renderPage_skips source v v' p hr
      have := pagesLoop_settled source ps (skipped ++ [p]) v' (fun q hq => by
        rcases List.mem_append.1 hq with hq | hq
        · exact hs.2 q (h q hq)
        · rw [List.mem_singleton.1 hq]
          exact hs.1)
      rw [List.append_assoc, List.singleton_append] at this
      exact this

theorem pagesLoop_consistent (source : Source) :
    ∀ (ps : List Nat) (v : Viewer), Consistent v → Consistent (pagesLoop source ps v).state
  | [], _, h => h
  | p :: ps, v, h => by
    cases hr : renderPage source v p with
    | threw v' =>
      obtain ⟨rfl, _⟩ := renderPage_threw source v v' p hr
      simp only [pagesLoop, hr, Outcome.state]
      exact h
    | done v' =>
      simp only [pagesLoop, hr]
      exact pagesLoop_consistent source ps v' (renderPage_consistent source v v' p h hr)

/-! ## `_onUpdateFindMatchesCount`: idempotence -/

/-- C8, as amended: for every viewer state and every find-controller snapshot, applying
`_onUpdateFindMatchesCount` twice with the same snapshot leaves the same rendered flags and
the same display (and ends the same way) as applying it once; and when the display of the
starting state holds at most one block per page and only blocks of flagged pages, no page
block appears twice in the display afterwards. -/
theorem matchesCount_idempotent (source : Source) (v : Viewer) :
    _onUpdateFindMatchesCount source (_onUpdateFindMatchesCount source v).state
        = _onUpdateFindMatchesCount source v ∧
      (Consistent v →
        (displayedPages
          (_onUpdateFindMatchesCount source
            (_onUpdateFindMatchesCount source v).state).state).Nodup) := by
  have h1 : _onUpdateFindMatchesCount source (_onUpdateFindMatchesCount source v).state
      = _onUpdateFindMatchesCount source v :=
    pagesLoop_settled source (List.range source._pageContents.length) [] v
      (fun q hq => by cases hq)
  refine ⟨h1, fun hc => ?_⟩
  rw [h1]
  exact (pagesLoop_consistent source _ v hc).1

theorem matchesCount_idempotent_witness :
    Consistent Viewer.new ∧
      (displayedPages
        (_onUpdateFindMatchesCount
          { query := utf16 "test", _pageContents := [utf16 "a test.", utf16 "no"],
            _pageMatches := [some [2], none], _dirtyMatch := false }
          (_onUpdateFindMatchesCount
            { query := utf16 "test", _pageContents := [utf16 "a test.", utf16 "no"],
              _pageMatches := [some [2], none], _dirtyMatch := false }
            Viewer.new).state).state).Nodup :=
  have hc : Consistent Viewer.new := ⟨List.nodup_nil, fun p hp => by cases hp⟩
  ⟨hc, (matchesCount_idempotent _ Viewer.new).2 hc⟩

/-- C8, as stated, fails: from a state whose display holds a block of page 0 that is not
flagged as rendered, the handler appends a second block of page 0. -/
theorem matchesCount_duplicates_unflagged_block :
    displayedPages
        (_onUpdateFindMatchesCount
          { query := [], _pageContents := [[]], _pageMatches := [some []], _dirtyMatch := false }
          (_onUpdateFindMatchesCount
            { query := [], _pageContents := [[]], _pageMatches := [some []],
              _dirtyMatch := false }
            { pageMatches := [], container := [{ id := 0, children := [] }] }).state).state
        = [0, 0] ∧
      ¬ (displayedPages
        (_onUpdateFindMatchesCount
          { query := [], _pageContents := [[]], _pageMatches := [some []], _dirtyMatch := false }
          (_onUpdateFindMatchesCount
            { query := [], _pageContents := [[]], _pageMatches := [some []],
              _dirtyMatch := false }
            { pageMatches := [], container := [{ id := 0, children := [] }] }).state).state).Nodup := by
  decide

/-! ## States reached from a new viewer -/

theorem consistent_new : Consistent Viewer.new :=
  ⟨List.nodup_nil, fun p hp => by cases hp⟩

theorem consistent_controlState (state : FindState) (source : Source) (v : Viewer)
    (h : Consistent v) : Consistent (_onUpdateFindControlState state source v) := by
  unfold _onUpdateFindControlState
  split_ifs
  · exact consistent_new
  · exact h

theorem consistent_reset (v : Viewer) (_h : Consistent v) : Consistent (reset v) :=
  ⟨List.nodup_nil, fun p hp => by cases hp⟩

theorem consistent_dispatch (v : Viewer) (n : Notification) (h : Consistent v) :
    Consistent (dispatch v n) := by
  cases n with
  | updatefindcontrolstate state source => exact consistent_controlState state source v h
  | updatefindmatchescount source => exact pagesLoop_consistent source _ v h

/-- Every state reached from a new viewer by notifications is consistent. -/
theorem consistent_dispatchAll (ns : List Notification) :
    ∀ (v : Viewer), Consistent v → Consistent (dispatchAll v ns) := by
  induction ns with
  | nil => intro v h; exact h
  | cons n rest ih =>
    intro v h
    exact ih (dispatch v n) (consistent_dispatch v n h)

/-! ## Order of the page blocks -/

/-- C9 fails on the code: when the match list of page 1 is known at a first notification and
that of page 0 only at a second one, the block of page 0 is appended after the block of
page 1 (line 92), and the display is not in ascending page order. -/
theorem display_order_follows_arrival :
    displayedPages (dispatchAll Viewer.new
        [.updatefindmatchescount
          { query := utf16 "a", _pageContents := [utf16 "a", utf16 "a"],
            _pageMatches := [none, some [0]], _dirtyMatch := false },
         .updatefindmatchescount
          { query := utf16 "a", _pageContents := [utf16 "a", utf16 "a"],
            _pageMatches := [some [0], some [0]], _dirtyMatch := false }]) = [1, 0] ∧
      ¬ List.Pairwise (fun a b => a < b)
        (displayedPages (dispatchAll Viewer.new
          [.updatefindmatchescount
            { query := utf16 "a", _pageContents := [utf16 "a", utf16 "a"],
              _pageMatches := [none, some [0]], _dirtyMatch := false },
           .updatefindmatchescount
            { query := utf16 "a", _pageContents := [utf16 "a", utf16 "a"],
              _pageMatches := [some [0], some [0]], _dirtyMatch := false }])) := by
  decide

/-! ## Reset -/

theorem renderPage_shown (source : Source) (v : Viewer) (p : Nat) (hs : Shown v) :
    ∃ v', renderPage source v p = .done v' ∧ Shown v' ∧
      (∀ d ∈ v.container, d ∈ v'.container) ∧
      (∀ q, flag v.pageMatches q = true → flag v'.pageMatches q = true) ∧
      (∀ q, q ≠ p → flag v'.pageMatches q = flag v.pageMatches q) ∧
      ∀ m, (source._pageMatches[p]?).join = some m →
        flag v'.pageMatches p = true ∧
          (flag v.pageMatches p = false → buildPageDiv source p m ∈ v'.container) := by
  cases hr : renderPage source v p with
  | threw v' => exact absurd hs (renderPage_threw source v v' p hr).2.2
  | done v' =>
    refine ⟨v', rfl, ?_⟩
    rcases renderPage_done source v v' p hr with ⟨rfl, hsk⟩ | ⟨m, hf, hm, hpm, hperm, hin, hmono⟩
    · refine ⟨hs, fun d hd => hd, fun q hq => hq, fun q _ => rfl, fun m hm => ?_⟩
      rcases hsk with h1 | h1
      · exact ⟨h1, fun h2 => by rw [h1] at h2; cases h2⟩
      · rw [hm] at h1
        cases h1
    · refine ⟨fun q hq => ?_, hmono, fun q hq => ?_, fun q hq => ?_, fun m' hm' => ?_⟩
      · rw [hpm, flag_setFlag] at hq
        refine (hperm.mem_iff).2 (List.mem_cons.2 ?_)
        by_cases hqp : q = p
        · exact Or.inl hqp
        · exact Or.inr (hs q (by simpa [hqp] using hq))
      · rw [hpm]
        exact flag_setFlag_mono _ _ _ hq
      · rw [hpm]
        exact flag_setFlag_of_ne _ _ _ hq
      · rw [hm] at hm'
        cases hm'
        exact ⟨by rw [hpm]; exact flag_setFlag_self _ _, fun _ => hin⟩

/-- From a state in which every flagged page has its block, the loop never throws, and every
visited page whose match list is present ends up flagged, with a newly built block when it was
not flagged before. -/
theorem pagesLoop_shown (source : Source) :
    ∀ (ps : List Nat) (v : Viewer), Shown v →
      ∃ v', pagesLoop source ps v = .done v' ∧ Shown v' ∧
        (∀ d ∈ v.container, d ∈ v'.container) ∧
        (∀ q, flag v.pageMatches q = true → flag v'.pageMatches q = true) ∧
        ∀ p ∈ ps, ∀ m, (source._pageMatches[p]?).join = some m →
          flag v'.pageMatches p = true ∧
            (flag v.pageMatches p = false → buildPageDiv source p m ∈ v'.container)
  | [], v, hs => ⟨v, rfl, hs, fun d hd => hd, fun q hq => hq, fun p hp => by cases hp⟩
  | a :: rest, v, hs => by
    obtain ⟨v1, hr, hs1, hc1, hm1, hne1, hp1⟩ := renderPage_shown source v a hs
    obtain ⟨v2, hl, hs2, hc2, hm2, hp2⟩ := pagesLoop_shown source rest v1 hs1
    refine ⟨v2, by simp only [pagesLoop, hr, hl], hs2, fun d hd => hc2 d (hc1 d hd),
      fun q hq => hm2 q (hm1 q hq), fun p hp m hm => ?_⟩
    by_cases hpa : p = a
    · subst hpa
      obtain ⟨h1, h2⟩ := hp1 m hm
      exact ⟨hm2 p h1, fun hf => hc2 _ (h2 hf)⟩
    · have hin : p ∈ rest := by
        rcases List.mem_cons.1 hp with h | h
        · exact absurd h hpa
        · exact h
      obtain ⟨h1, h2⟩ := hp2 p hin m hm
      exact ⟨h1, fun hf => h2 (by rw [hne1 p hpa]; exact hf)⟩

/-- C10: for every viewer state, a control-state notification with state `PENDING` and a
dirty source clears every rendered flag and empties the display, so a following
matches-updated notification produces exactly what it produces on a newly constructed viewer:
it ends normally, and every page whose match list is present is flagged and has a block built
from the snapshot in the display. -/
theorem pending_dirty_resets (v : Viewer) (source next : Source)
    (hd : source._dirtyMatch = true) :
    (∀ p, flag (_onUpdateFindControlState .PENDING source v).pageMatches p = false) ∧
      (_onUpdateFindControlState .PENDING source v).container = [] ∧
      _onUpdateFindMatchesCount next (_onUpdateFindControlState .PENDING source v)
        = _onUpdateFindMatchesCount next Viewer.new ∧
      ∃ v', _onUpdateFindMatchesCount next (_onUpdateFindControlState .PENDING source v)
          = .done v' ∧
        ∀ p m, p < next._pageContents.length → next._pageMatches[p]? = some (some m) →
          flag v'.pageMatches p = true ∧ buildPageDiv next p m ∈ v'.container := by
  have e : _onUpdateFindControlState .PENDING source v = Viewer.new := by
    simp [_onUpdateFindControlState, hd, Viewer.new]
  rw [e]
  refine ⟨fun p => by simp [Viewer.new, flag], rfl, rfl, ?_⟩
  obtain ⟨v', hl, _, _, _, hp⟩ := pagesLoop_shown next
    (List.range next._pageContents.length) Viewer.new
    (fun p hp => by simp [Viewer.new, flag] at hp)
  refine ⟨v', hl, fun p m hlt hm => ?_⟩
  obtain ⟨h1, h2⟩ := hp p (List.mem_range.2 hlt) m (by rw [hm]; rfl)
  exact ⟨h1, h2 (by simp [Viewer.new, flag])⟩

theorem pending_dirty_resets_witness :
    sampleSource._dirtyMatch = true ∧
      ((∀ p, flag (_onUpdateFindControlState .PENDING sampleSource sampleViewer).pageMatches p
          = false) ∧
        (_onUpdateFindControlState .PENDING sampleSource sampleViewer).container = [] ∧
        _onUpdateFindMatchesCount sampleSource
            (_onUpdateFindControlState .PENDING sampleSource sampleViewer)
          = _onUpdateFindMatchesCount sampleSource Viewer.new ∧
        ∃ v', _onUpdateFindMatchesCount sampleSource
              (_onUpdateFindControlState .PENDING sampleSource sampleViewer) = .done v' ∧
          ∀ p m, p < sampleSource._pageContents.length →
            sampleSource._pageMatches[p]? = some (some m) →
            flag v'.pageMatches p = true ∧ buildPageDiv sampleSource p m ∈ v'.container) :=
  ⟨rfl, pending_dirty_resets sampleViewer sampleSource sampleSource rfl⟩

theorem sampleViewer_eq :
    sampleViewer.pageMatches = [true, true, true] ∧ displayedPages sampleViewer = [0, 1, 2] := by
  decide

/-! ## Length of the excerpts -/

theorem findStartLoop_extent (pc : JSString) (m lb : Int) :
    ∀ (fuel : Nat) (idx : Int) (res : Boundary) (r : Int),
      (∀ r, res = some r → m - r ≤ 30) →
      findStartLoop pc m lb fuel idx res = some r → m - r ≤ 30 := by
  intro fuel
  induction fuel with
  | zero => intro idx res r hres h; exact hres r h
  | succ n ih =>
    intro idx res r hres
    simp only [findStartLoop, MATCH_EXTENT]
    split_ifs with hg hp hl he
    · exact hres r
    · intro h
      cases h
      omega
    · exact ih _ _ r (fun r h => by cases h; omega)
    · exact ih _ _ r hres
    · exact hres r

theorem findEndLoop_extent (pc : JSString) (me ub : Int) :
    ∀ (fuel : Nat) (idx : Int) (res : Boundary) (r : Int),
      (∀ r, res = some r → r - me ≤ 30) →
      findEndLoop pc me ub fuel idx res = some r → r - me ≤ 30 := by
  intro fuel
  induction fuel with
  | zero => intro idx res r hres h; exact hres r h
  | succ n ih =>
    intro idx res r hres
    simp only [findEndLoop, MATCH_EXTENT]
    split_ifs with hg hp hl he
    · exact hres r
    · intro h
      cases h
      omega
    · exact ih _ _ r (fun r h => by cases h; omega)
    · exact ih _ _ r hres
    · exact hres r

/-- C14: each excerpt side is at most `MATCH_EXTENT = 30` characters long: whenever
`0 ≤ lowerBound ≤ matchStart ≤ length`, `matchStart - _findStart(...) ≤ 30`, and whenever
`0 ≤ matchEnd ≤ upperBound ≤ length`, `_findEnd(...) - matchEnd ≤ 30`. -/
theorem excerpt_extent (pageText : JSString) :
    (∀ matchStart lowerBound : Int, 0 ≤ lowerBound → lowerBound ≤ matchStart →
        matchStart ≤ pageText.length →
        matchStart - _findStart pageText matchStart lowerBound ≤ 30) ∧
      (∀ matchEnd upperBound : Int, 0 ≤ matchEnd → matchEnd ≤ upperBound →
        upperBound ≤ pageText.length →
        _findEnd pageText matchEnd upperBound - matchEnd ≤ 30) := by
  constructor
  · intro m lb _ _ _
    unfold _findStart
    cases hr : findStartLoop pageText m lb (m - lb).toNat (m - 1) none with
    | none =>
      simp only [MATCH_EXTENT]
      omega
    | some r => exact findStartLoop_extent pageText m lb _ _ _ r (fun r h => by cases h) hr
  · intro me ub _ _ _
    unfold _findEnd
    cases hr : findEndLoop pageText me ub (ub - me).toNat me none with
    | none =>
      simp only [MATCH_EXTENT]
      omega
    | some r => exact findEndLoop_extent pageText me ub _ _ _ r (fun r h => by cases h) hr

theorem excerpt_extent_witness :
    ((0 : Int) ≤ 0 ∧ (0 : Int) ≤ 60 ∧ (60 : Int) ≤ scenarioText.length ∧
        (0 : Int) ≤ 4 ∧ (4 : Int) ≤ 64 ∧ (64 : Int) ≤ scenarioText.length) ∧
      60 - _findStart scenarioText 60 0 ≤ 30 ∧ _findEnd scenarioText 4 64 - 4 ≤ 30 :=
  ⟨by decide,
    (excerpt_extent scenarioText).1 60 0 (by decide) (by decide) (by decide),
    (excerpt_extent scenarioText).2 4 64 (by decide) (by decide) (by decide)⟩

/-! ## The scenario of the specification -/

/-- C15: for the page text of the scenario, `_findStart(text, 21, 0)` returns 12, the position
right after `Hello world.`, and `_findEnd(text, 25, 66)` returns either the position just after
a punctuation character lying within 30 characters of the match end or, when there is none,
the fallback `25 + 30 = 55`. -/
theorem spec_scenario :
    _findStart scenarioText 21 0 = 12 ∧
      substring scenarioText 0 12 = utf16 "Hello world." ∧
      ((∃ j, endCandidate scenarioText 25 66 j ∧ _findEnd scenarioText 25 66 = j + 1) ∨
        ((∀ i, ¬ endCandidate scenarioText 25 66 i) ∧ _findEnd scenarioText 25 66 = 25 + 30)) := by
  refine ⟨by decide, by decide, Or.inr ⟨fun i hc => ?_, by decide⟩⟩
  have hb : ∀ n : Nat, n < 66 → ¬ endCandidate scenarioText 25 66 (n : Int) := by decide
  have h := hb i.toNat (by have := hc.1; have := hc.2.1; omega)
  rw [Int.toNat_of_nonneg (by have := hc.1; omega)] at h
  exact h hc

/-- In the scenario no punctuation lies within 30 characters after the match: the end is the
fallback. -/
theorem scenario_end_is_fallback : _findEnd scenarioText 25 66 = 55 ∧ scenarioText.length = 64 := by
  decide

/-! ## Rendered flags are only cleared by the pending, dirty reset -/

theorem renderPage_flags_mono (source : Source) (v : Viewer) (p q : Nat)
    (h : flag v.pageMatches q = true) :
    flag (renderPage source v p).state.pageMatches q = true := by
  cases hr : renderPage source v p with
  | threw v' =>
    obtain ⟨rfl, _⟩ := renderPage_threw source v v' p hr
    exact h
  | done v' =>
    rcases renderPage_done source v v' p hr with ⟨rfl, _⟩ | ⟨m, _, _, hpm, _⟩
    · exact h
    · simp only [Outcome.state, hpm]
      exact flag_setFlag_mono _ _ _ h

theorem pagesLoop_flags_mono (source : Source) (q : Nat) :
    ∀ (ps : List Nat) (v : Viewer), flag v.pageMatches q = true →
      flag (pagesLoop source ps v).state.pageMatches q = true
  | [], _, h => h
  | p :: ps, v, h => by
    have h1 := renderPage_flags_mono source v p q h
    cases hr : renderPage source v p with
    | threw v' =>
      rw [hr] at h1
      simp only [pagesLoop, hr]
      exact h1
    | done v' =>
      rw [hr] at h1
      simp only [pagesLoop, hr]
      exact pagesLoop_flags_mono source q ps v' h1

/-- C17: for every viewer state, if the notified state is not `PENDING` or the source is not
dirty, `_onUpdateFindControlState` leaves the rendered flags and the display unchanged; and a
flag that is set stays set through that handler, through the matches-updated handler and
through `reset()`. -/
theorem controlState_keeps (v : Viewer) (state : FindState) (source : Source)
    (h : state ≠ FindState.PENDING ∨ source._dirtyMatch = false) :
    (_onUpdateFindControlState state source v).pageMatches = v.pageMatches ∧
      (_onUpdateFindControlState state source v).container = v.container ∧
      ∀ p, flag v.pageMatches p = true →
        flag (_onUpdateFindControlState state source v).pageMatches p = true ∧
        (∀ next, flag (_onUpdateFindMatchesCount next v).state.pageMatches p = true) ∧
        flag (reset v).pageMatches p = true := by
  have e : _onUpdateFindControlState state source v = v := by
    unfold _onUpdateFindControlState
    rw [if_neg]
    rintro ⟨h1, h2⟩
    rcases h with h | h
    · exact h h1
    · rw [h] at h2
      cases h2
  rw [e]
  exact ⟨rfl, rfl, fun p hp => ⟨hp, fun next => pagesLoop_flags_mono next p _ v hp, hp⟩⟩

theorem controlState_keeps_witness :
    (FindState.FOUND ≠ FindState.PENDING ∨ sampleSource._dirtyMatch = false) ∧
      ((_onUpdateFindControlState .FOUND sampleSource sampleViewer).pageMatches
          = sampleViewer.pageMatches ∧
        (_onUpdateFindControlState .FOUND sampleSource sampleViewer).container
          = sampleViewer.container ∧
        ∀ p, flag sampleViewer.pageMatches p = true →
          flag (_onUpdateFindControlState .FOUND sampleSource sampleViewer).pageMatches p
            = true ∧
          (∀ next, flag (_onUpdateFindMatchesCount next sampleViewer).state.pageMatches p
            = true) ∧
          flag (reset sampleViewer).pageMatches p = true) :=
  ⟨Or.inl (by decide),
    controlState_keeps sampleViewer .FOUND sampleSource (Or.inl (by decide))⟩

/-! ## `_escapeHtml` is a character-wise substitution -/

theorem escapeChar_ne_nil (x : CodeUnit) : escapeChar x ≠ [] := by
  simp only [escapeChar, utf16_amp, utf16_lt, utf16_gt, utf16_quot, utf16_apos]
  split_ifs <;> simp

theorem escapeChar_append_inj (x y : CodeUnit) (r r' : JSString)
    (h : escapeChar x ++ r = escapeChar y ++ r') : x = y ∧ r = r' := by
  simp only [escapeChar, utf16_amp, utf16_lt, utf16_gt, utf16_quot, utf16_apos, ampersand,
    lessThan, greaterThan, doubleQuote, singleQuote] at h
  split_ifs at h <;> simp_all

theorem flatMap_escapeChar_inj :
    ∀ (a b : JSString), a.flatMap escapeChar = b.flatMap escapeChar → a = b
  | [], [], _ => rfl
  | [], y :: b, h => by
    rw [List.flatMap_nil, List.flatMap_cons] at h
    exact absurd (List.append_eq_nil.1 h.symm).1 (escapeChar_ne_nil y)
  | x :: a, [], h => by
    rw [List.flatMap_nil, List.flatMap_cons] at h
    exact absurd (List.append_eq_nil.1 h).1 (escapeChar_ne_nil x)
  | x :: a, y :: b, h => by
    rw [List.flatMap_cons, List.flatMap_cons] at h
    obtain ⟨hxy, hr⟩ := escapeChar_append_inj x y _ _ h
    rw [hxy, flatMap_escapeChar_inj a b hr]

/-- C19: the five sequential global replacements of `_escapeHtml` equal one character-wise
substitution (`escapeChar`: `&` to `&amp;`, `<` to `&lt;`, `>` to `&gt;`, double quote to
`&quot;`, single quote to `&#039;`, any other character unchanged); hence
`_escapeHtml(a + b) = _escapeHtml(a) + _escapeHtml(b)`, and the original text is determined by
the output. -/
theorem escapeHtml_charwise (a b : JSString) :
    _escapeHtml a = a.flatMap escapeChar ∧
      _escapeHtml (a ++ b) = _escapeHtml a ++ _escapeHtml b ∧
      (_escapeHtml a = _escapeHtml b → a = b) := by
  refine ⟨escapeHtml_eq_flatMap a, ?_, fun h => ?_⟩
  · simp only [escapeHtml_eq_flatMap, List.flatMap_append]
  · rw [escapeHtml_eq_flatMap, escapeHtml_eq_flatMap] at h
    exact flatMap_escapeChar_inj a b h

theorem escapeHtml_charwise_witness :
    _escapeHtml (utf16 "&amp;<b>") = _escapeHtml ([38] ++ utf16 "amp;<b>") ∧
      utf16 "&amp;<b>" = [38] ++ utf16 "amp;<b>" ∧
      _escapeHtml (utf16 "&amp;<b>") = utf16 "&amp;amp;&lt;b&gt;" :=
  ⟨by decide,
    (escapeHtml_charwise (utf16 "&amp;<b>") ([38] ++ utf16 "amp;<b>")).2.2 (by decide),
    by decide⟩

/-! ## The bounds handed to `_findStart` and `_findEnd` -/

/-- The markup of an entry, in terms of the two excerpt boundaries. -/
theorem matchElement_innerHTML (source : Source) (pageIdx : Nat) (pageContent : JSString)
    (ms : List Nat) (matchIdx : Nat) :
    (matchElement source pageIdx pageContent ms matchIdx).innerHTML
      = _escapeHtml (substring pageContent
          (excerptStart source.query pageContent ms matchIdx) (ms.getD matchIdx 0)) ++
        utf16 "<em>" ++ _escapeHtml source.query ++ utf16 "</em>" ++
        _escapeHtml (substring pageContent ((ms.getD matchIdx 0 : Int) + source.query.length)
          (excerptEnd source.query pageContent ms matchIdx)) :=
  rfl

/-- A preceding match at a positive offset bounds the excerpt by its end. -/
theorem prevMatchEnd_of_pos (query : JSString) (ms : List Nat) (matchIdx prev : Nat)
    (h0 : 0 < matchIdx) (hp : ms[matchIdx - 1]? = some prev) (hpos : prev ≠ 0) :
    prevMatchEnd query ms matchIdx = (prev : Int) + query.length := by
  simp [prevMatchEnd, h0, hp, truthy, hpos]

/-- A preceding match at offset 0 reads as falsy on line 78 and the bound is 0. -/
theorem prevMatchEnd_of_zero (query : JSString) (ms : List Nat) (matchIdx : Nat)
    (hp : ms[matchIdx - 1]? = some 0) : prevMatchEnd query ms matchIdx = 0 := by
  simp only [prevMatchEnd]
  split_ifs <;> simp_all [truthy]

/-- Line 76 never finds a following match: the upper bound is always the page length. -/
theorem nextMatchStart_eq_length (pageContent : JSString) (ms : List Nat) (matchIdx : Nat) :
    nextMatchStart pageContent ms matchIdx = pageContent.length := by
  simp [nextMatchStart, matchesLen, ltLenMinusOne, truthy]

/-- C11 fails on the code: on the page `aa aa` with the query `aa` found at offsets 0 and 3, the
second match has the preceding match at offset 0, which line 78 reads as falsy; the lower
bound handed to `_findStart` is 0 instead of the preceding match's end 2, and the excerpt
before the second match is `aa `, the preceding match included. -/
theorem excerpt_before_crosses_first_match :
    prevMatchEnd (utf16 "aa") [0, 3] 1 = 0 ∧
      excerptStart (utf16 "aa") (utf16 "aa aa") [0, 3] 1 = 0 ∧
      ¬ ((0 : Int) + (utf16 "aa").length ≤ excerptStart (utf16 "aa") (utf16 "aa aa") [0, 3] 1) ∧
      (_onUpdateFindMatchesCount twoMatchSource Viewer.new).state.container
        = [{ id := 0
             children := [{ innerHTML := utf16 "<em>aa</em> aa", onclick := (0, 0) },
                          { innerHTML := utf16 "aa <em>aa</em>", onclick := (0, 1) }] }] := by
  decide

/-- C12 fails on the code: on the page `aa aa` with the query `aa` found at offsets 0 and 3, the
first match has a following match at offset 3, but `matches.len` is `undefined` and the upper
bound handed to `_findEnd` is the page length 5; the excerpt after the first match is ` aa`,
the following match included. -/
theorem excerpt_after_crosses_next_match :
    nextMatchStart (utf16 "aa aa") [0, 3] 0 = 5 ∧
      excerptEnd (utf16 "aa") (utf16 "aa aa") [0, 3] 0 = 5 ∧
      ¬ (excerptEnd (utf16 "aa") (utf16 "aa aa") [0, 3] 0 ≤ 3) ∧
      substring (utf16 "aa aa") 2 (excerptEnd (utf16 "aa") (utf16 "aa aa") [0, 3] 0)
        = utf16 " aa" ∧
      (matchElement twoMatchSource 0 (utf16 "aa aa") [0, 3] 0).innerHTML
        = utf16 "<em>aa</em> aa" := by
  decide

/-! ## Where a new block is placed -/

/-- C16 fails on the code: with the block of page 1 in the display and page 0 not yet
rendered, `_findPrevPageMatch(0)` is `null` and the new block of page 0 is appended at the end
of the display, not put at its front. -/
theorem block_without_lower_page_appended :
    displayedPages (_onUpdateFindMatchesCount lateSource Viewer.new).state = [1] ∧
      _findPrevPageMatch (_onUpdateFindMatchesCount lateSource Viewer.new).state.pageMatches 0
        = none ∧
      displayedPages
        (renderPage lateSourceDone (_onUpdateFindMatchesCount lateSource Viewer.new).state
          0).state = [1, 0] ∧
      (displayedPages
        (renderPage lateSourceDone (_onUpdateFindMatchesCount lateSource Viewer.new).state
          0).state).head? ≠ some 0 := by
  decide

/-! ## The invariant between flags and display -/

theorem exactlyRendered_iff (v : Viewer) : ExactlyRendered v ↔ Consistent v ∧ Shown v := by
  constructor
  · rintro ⟨h1, h2⟩
    exact ⟨⟨h1, fun p hp => (h2 p).1 hp⟩, fun p hp => (h2 p).2 hp⟩
  · rintro ⟨⟨h1, h2⟩, h3⟩
    exact ⟨h1, fun p => ⟨h2 p, h3 p⟩⟩

theorem shown_new : Shown Viewer.new := fun p hp => by
  simp [Viewer.new, flag] at hp

/-- The control-state handler keeps the invariant. -/
theorem exactlyRendered_controlState (state : FindState) (source : Source) (v : Viewer)
    (h : ExactlyRendered v) : ExactlyRendered (_onUpdateFindControlState state source v) := by
  unfold _onUpdateFindControlState
  split_ifs
  · exact (exactlyRendered_iff _).2 ⟨consistent_new, shown_new⟩
  · exact h

/-- The matches-updated handler keeps the invariant, and under it never throws. -/
theorem exactlyRendered_matchesCount (source : Source) (v : Viewer) (h : ExactlyRendered v) :
    ∃ v', _onUpdateFindMatchesCount source v = .done v' ∧ ExactlyRendered v' := by
  obtain ⟨hc, hs⟩ := (exactlyRendered_iff v).1 h
  obtain ⟨v', hl, hs', _⟩ := pagesLoop_shown source
    (List.range source._pageContents.length) v hs
  refine ⟨v', hl, (exactlyRendered_iff v').2 ⟨?_, hs'⟩⟩
  have := pagesLoop_consistent source (List.range source._pageContents.length) v hc
  rw [hl] at this
  exact this

theorem exactlyRendered_sampleViewer : ExactlyRendered sampleViewer := by
  obtain ⟨v', hl, hv'⟩ := exactlyRendered_matchesCount sampleSource Viewer.new
    ((exactlyRendered_iff _).2 ⟨consistent_new, shown_new⟩)
  have e : sampleViewer = v' := by
    simp only [sampleViewer, hl, Outcome.state]
  rw [e]
  exact hv'

/-- C18 fails on the code: `reset()` empties the display and keeps the rendered flags, so
after it pages 0, 1 and 2 of the sample session are flagged without a block; at the next
notification the reference block looked up for page 3 does not exist and the handler
throws. -/
theorem reset_breaks_invariant :
    ExactlyRendered sampleViewer ∧
      (reset sampleViewer).pageMatches = [true, true, true] ∧
      displayedPages (reset sampleViewer) = [] ∧
      ¬ ExactlyRendered (reset sampleViewer) ∧
      _findPrevPageMatch (reset sampleViewer).pageMatches 3 = some 2 ∧
      getElementById (reset sampleViewer).container 2 = none ∧
      _onUpdateFindMatchesCount sampleSourceGrown (reset sampleViewer)
        = .threw (reset sampleViewer) := by
  refine ⟨exactlyRendered_sampleViewer, by decide, by decide, fun h => ?_, by decide,
    by decide, by decide⟩
  have h0 : (0 : Nat) ∈ displayedPages (reset sampleViewer) := (h.2 0).2 (by decide)
  have e : displayedPages (reset sampleViewer) = [] := by decide
  rw [e] at h0
  cases h0

/-! ## Which pages the handler flags -/

theorem renderPage_absent (source : Source) (v : Viewer) (a p : Nat)
    (hp : (source._pageMatches[p]?).join = none) :
    flag (renderPage source v a).state.pageMatches p = flag v.pageMatches p ∧
      (displayedPages (renderPage source v a).state).count p = (displayedPages v).count p := by
  cases hr : renderPage source v a with
  | threw v' =>
    obtain ⟨rfl, _⟩ := renderPage_threw source v v' a hr
    exact ⟨rfl, rfl⟩
  | done v' =>
    rcases renderPage_done source v v' a hr with ⟨rfl, _⟩ | ⟨m, _, hm, hpm, hperm, _⟩
    · exact ⟨rfl, rfl⟩
    · have hne : p ≠ a := fun e => by
        rw [e, hm] at hp
        cases hp
      simp only [Outcome.state]
      refine ⟨by rw [hpm]; exact flag_setFlag_of_ne _ _ _ hne, ?_⟩
      rw [hperm.count_eq, List.count_cons_of_ne hne]

/-- A page without a match list keeps its flag and gets no block, whatever the state. -/
theorem pagesLoop_absent (source : Source) (p : Nat)
    (hp : (source._pageMatches[p]?).join = none) :
    ∀ (ps : List Nat) (v : Viewer),
      flag (pagesLoop source ps v).state.pageMatches p = flag v.pageMatches p ∧
        (displayedPages (pagesLoop source ps v).state).count p = (displayedPages v).count p
  | [], _ => ⟨rfl, rfl⟩
  | a :: ps, v => by
    have h1 := renderPage_absent source v a p hp
    cases hr : renderPage source v a with
    | threw v' =>
      rw [hr] at h1
      simp only [pagesLoop, hr]
      exact h1
    | done v' =>
      rw [hr] at h1
      simp only [pagesLoop, hr]
      simp only [Outcome.state] at h1
      obtain ⟨h2, h3⟩ := pagesLoop_absent source p hp ps v'
      exact ⟨h2.trans h1.1, h3.trans h1.2⟩

/-- On every viewer state in which each flagged page has its block in the display (every state
reached without `reset()`), for every snapshot and every page index `p` below the number of
page texts: after the matches-updated handler, `p` is flagged iff it was flagged before or the
snapshot holds a match list for `p` (an empty list counts as present); and a page whose match
list is absent gets no block and keeps its flag, so an unflagged one stays unflagged. -/
theorem matchesCount_flags (source : Source) (v : Viewer) (p : Nat) (hs : Shown v)
    (hp : p < source._pageContents.length) :
    (flag (_onUpdateFindMatchesCount source v).state.pageMatches p = true ↔
        flag v.pageMatches p = true ∨ (source._pageMatches[p]?).join ≠ none) ∧
      ((source._pageMatches[p]?).join = none →
        flag (_onUpdateFindMatchesCount source v).state.pageMatches p = flag v.pageMatches p ∧
          (displayedPages (_onUpdateFindMatchesCount source v).state).count p
            = (displayedPages v).count p) := by
  refine ⟨⟨fun h => ?_, fun h => ?_⟩, fun h => pagesLoop_absent source p h _ v⟩
  · cases hm : (source._pageMatches[p]?).join with
    | none =>
      left
      rw [← (pagesLoop_absent source p hm (List.range source._pageContents.length) v).1]
      exact h
    | some m => exact Or.inr (fun h => by cases h)
  · rcases h with h | h
    · exact pagesLoop_flags_mono source p _ v h
    · obtain ⟨v', hl, _, _, _, hall⟩ := pagesLoop_shown source
        (List.range source._pageContents.length) v hs
      cases hm : (source._pageMatches[p]?).join with
      | none => exact absurd hm h
      | some m =>
        simp only [_onUpdateFindMatchesCount, hl, Outcome.state]
        exact (hall p (List.mem_range.2 hp) m hm).1

theorem matchesCount_flags_witness :
    (Shown Viewer.new ∧ 1 < sampleSource._pageContents.length) ∧
      ((flag (_onUpdateFindMatchesCount sampleSource Viewer.new).state.pageMatches 1 = true ↔
          flag Viewer.new.pageMatches 1 = true ∨ (sampleSource._pageMatches[1]?).join ≠ none) ∧
        ((sampleSource._pageMatches[1]?).join = none →
          flag (_onUpdateFindMatchesCount sampleSource Viewer.new).state.pageMatches 1
              = flag Viewer.new.pageMatches 1 ∧
            (displayedPages (_onUpdateFindMatchesCount sampleSource Viewer.new).state).count 1
              = (displayedPages Viewer.new).count 1)) :=
  ⟨⟨shown_new, by decide⟩, matchesCount_flags sampleSource Viewer.new 1 shown_new (by decide)⟩

/-- C13 fails on the code: `reset()` empties the display and keeps the rendered flags, so in
the state it leaves after the sample session pages 0 to 2 are flagged without a block; at the
next notification the handler throws at page 3 (the reference block of page 2 is missing) and
leaves page 3 unflagged although the snapshot holds a match list for it. -/
theorem matchesCount_leaves_page_unflagged :
    3 < sampleSourceGrown._pageContents.length ∧
      (sampleSourceGrown._pageMatches[3]?).join = some [5] ∧
      flag (reset sampleViewer).pageMatches 3 = false ∧
      flag (_onUpdateFindMatchesCount sampleSourceGrown (reset sampleViewer)).state.pageMatches 3
        = false ∧
      _onUpdateFindMatchesCount sampleSourceGrown (reset sampleViewer)
        = .threw (reset sampleViewer) := by
  decide

/-! ## Match data arriving in ascending page order -/

theorem flag_lt_length (pm : List Bool) (q : Nat) (h : flag pm q = true) : q < pm.length := by
  by_contra hq
  rw [flag_eq, List.getElem?_eq_none (by omega)] at h
  cases h

/-- Inserting after the block of the greatest displayed page is appending. -/
theorem insertAfter_last (blocks : List PageDiv) (d : PageDiv) (q ref : Nat)
    (hg : getElementById blocks q = some ref)
    (hs : List.Pairwise (fun a b => a < b) (blocks.map (fun d => d.id)))
    (hmax : ∀ r ∈ blocks.map (fun d => d.id), r ≤ q) :
    _insertAfter blocks d ref = blocks ++ [d] := by
  obtain ⟨hlt, hq, _⟩ := List.findIdx?_eq_some_iff_getElem.1 hg
  have hq' : blocks[ref].id = q := by simpa using hq
  have hlast : blocks.length ≤ ref + 1 := by
    by_contra hcon
    have h1 : ref + 1 < (blocks.map (fun d => d.id)).length := by
      rw [List.length_map]
      omega
    have h0 : ref < (blocks.map (fun d => d.id)).length := by omega
    have hlt' := List.pairwise_iff_getElem.1 hs ref (ref + 1) h0 h1 (by omega)
    have hle := hmax _ (List.getElem_mem h1)
    rw [List.getElem_map] at hlt'
    rw [hq'] at hlt'
    omega
  simp only [_insertAfter]
  rw [List.take_of_length_le hlast, List.drop_eq_nil_of_le hlast]

/-- A pass of the loop body over a page above every flagged page keeps the display in
ascending order: the block, if any, goes to the end. -/
theorem renderPage_ascending (source : Source) (v : Viewer) (p : Nat) (hinv : Ascending v)
    (hlt : flag v.pageMatches p = false → (source._pageMatches[p]?).join ≠ none →
      ∀ q, flag v.pageMatches q = true → q < p) :
    ∃ v', renderPage source v p = .done v' ∧ Ascending v' ∧
      (∀ q, flag v'.pageMatches q = true → flag v.pageMatches q = true ∨ q = p) ∧
      (∀ q, flag v.pageMatches q = true → flag v'.pageMatches q = true) := by
  have happend : ∀ m, flag v.pageMatches p = false → (source._pageMatches[p]?).join = some m →
      Ascending { pageMatches := setFlag v.pageMatches p
                  container := v.container ++ [buildPageDiv source p m] } ∧
      (∀ q, flag (setFlag v.pageMatches p) q = true → flag v.pageMatches q = true ∨ q = p) ∧
      (∀ q, flag v.pageMatches q = true → flag (setFlag v.pageMatches p) q = true) := by
    intro m hf hm
    have hall := hlt hf (by rw [hm]; exact fun h => by cases h)
    refine ⟨⟨?_, fun q => ?_⟩, fun q hq => ?_, fun q hq => flag_setFlag_mono _ _ _ hq⟩
    · simp only [displayedPages, List.map_append, List.map_cons, List.map_nil]
      refine List.pairwise_append.2 ⟨hinv.1, List.pairwise_singleton _ _, fun a ha b hb => ?_⟩
      rw [List.mem_singleton.1 hb]
      exact hall a ((hinv.2 a).1 ha)
    · simp only [displayedPages, List.map_append, List.map_cons, List.map_nil,
        List.mem_append, List.mem_singleton, flag_setFlag, Bool.or_eq_true, decide_eq_true_eq]
      have := hinv.2 q
      simp only [displayedPages] at this
      rw [this]
      exact ⟨fun h => h.symm, fun h => h.symm⟩
    · rw [flag_setFlag] at hq
      simp only [Bool.or_eq_true, decide_eq_true_eq] at hq
      exact hq.symm
  rcases renderPage_cases source v p with ⟨_, hr⟩ | ⟨m, hf, hm, hr | hr | hr⟩
  · exact ⟨v, hr, hinv, fun q hq => Or.inl hq, fun q hq => hq⟩
  · exact ⟨_, hr.2, happend m hf hm⟩
  · obtain ⟨prev, hp, hg, _⟩ := hr
    have h1 := (hinv.2 prev).2 (findPrevPageMatch_some _ _ _ hp).2.1
    have h2 := (getElementById_isSome v.container prev).2 h1
    rw [hg] at h2
    cases h2
  · obtain ⟨prev, ref, hp, hg, hr⟩ := hr
    obtain ⟨_, _, hnone⟩ := findPrevPageMatch_some _ _ _ hp
    have hall := hlt hf (by rw [hm]; exact fun h => by cases h)
    have e : _insertAfter v.container (buildPageDiv source p m) ref
        = v.container ++ [buildPageDiv source p m] :=
      insertAfter_last v.container _ prev ref hg hinv.1 (fun r hr => by
        have hfr := (hinv.2 r).1 hr
        have hrp := hall r hfr
        by_contra hcon
        have := hnone r (by omega) hrp
        rw [hfr] at this
        cases this)
    rw [e] at hr
    exact ⟨_, hr, happend m hf hm⟩

theorem pagesLoop_ascending (source : Source) :
    ∀ (ps : List Nat) (v : Viewer), List.Pairwise (fun a b => a < b) ps → Ascending v →
      (∀ p ∈ ps, flag v.pageMatches p = false → (source._pageMatches[p]?).join ≠ none →
        ∀ q, flag v.pageMatches q = true → q < p) →
      ∃ v', pagesLoop source ps v = .done v' ∧ Ascending v'
  | [], v, _, hinv, _ => ⟨v, rfl, hinv⟩
  | a :: rest, v, hps, hinv, h => by
    obtain ⟨hhead, htail⟩ := List.pairwise_cons.1 hps
    obtain ⟨v1, hr, hinv1, hnew, hmono⟩ :=
      renderPage_ascending source v a hinv (h a (List.mem_cons_self _ _))
    obtain ⟨v2, hl, hinv2⟩ := pagesLoop_ascending source rest v1 htail hinv1
      (fun p hp hf hm q hq => by
        rcases hnew q hq with hq' | hq'
        · refine h p (List.mem_cons_of_mem _ hp) ?_ hm q hq'
          cases hfp : flag v.pageMatches p with
          | false => rfl
          | true =>
            rw [hmono p hfp] at hf
            cases hf
        · rw [hq']
          exact hhead p hp)
    exact ⟨v2, by simp only [pagesLoop, hr, hl], hinv2⟩

theorem matchesCount_ascending (source : Source) (v : Viewer) (hinv : Ascending v)
    (h : ArrivesAscending v source) :
    Ascending (_onUpdateFindMatchesCount source v).state := by
  have hs : Shown v := fun p hp => (hinv.2 p).2 hp
  obtain ⟨w, hw, _, _, _, hall⟩ := pagesLoop_shown source
    (List.range source._pageContents.length) v hs
  obtain ⟨v', hl, hinv'⟩ := pagesLoop_ascending source
    (List.range source._pageContents.length) v (List.pairwise_lt_range _) hinv
    (fun p hp hf hm q hq => by
      refine h p (List.mem_range.1 hp) q (flag_lt_length _ _ hq) hq hf ?_
      cases hmm : (source._pageMatches[p]?).join with
      | none => exact absurd hmm hm
      | some m =>
        simp only [_onUpdateFindMatchesCount, hw, Outcome.state]
        exact (hall p hp m hmm).1)
  simp only [_onUpdateFindMatchesCount, hl, Outcome.state]
  exact hinv'

theorem matchesAll_ascending :
    ∀ (sources : List Source) (v : Viewer), Ascending v → AscendingArrival v sources →
      ∀ k, Ascending (matchesAll v (sources.take k))
  | [], v, hinv, _, k => by
    simp only [List.take_nil, matchesAll, List.foldl_nil]
    exact hinv
  | _ :: _, v, hinv, _, 0 => by
    simp only [List.take_zero, matchesAll, List.foldl_nil]
    exact hinv
  | source :: rest, v, hinv, h, k + 1 => by
    simp only [List.take_succ_cons, matchesAll, List.foldl_cons]
    exact matchesAll_ascending rest _ (matchesCount_ascending source v hinv h.1) h.2 k

theorem ascending_new : Ascending Viewer.new :=
  ⟨List.Pairwise.nil, fun p => by simp [Viewer.new, displayedPages, flag]⟩

/-- C20: starting from a newly constructed viewer or from one just reset by a pending, dirty
control-state notification, for every sequence of matches-updated notifications in which each
page rendered by a notification has a greater index than every page rendered before it, the
display after each notification lists the rendered pages in strictly ascending page-index
order. -/
theorem ascending_arrival_keeps_order (v0 : Viewer) (sources : List Source)
    (h0 : v0 = Viewer.new ∨ ∃ source v, source._dirtyMatch = true ∧
      v0 = _onUpdateFindControlState .PENDING source v)
    (h : AscendingArrival v0 sources) (k : Nat) :
    List.Pairwise (fun a b => a < b) (displayedPages (matchesAll v0 (sources.take k))) ∧
      ∀ p, p ∈ displayedPages (matchesAll v0 (sources.take k)) ↔
        flag (matchesAll v0 (sources.take k)).pageMatches p = true := by
  have e : v0 = Viewer.new := by
    rcases h0 with h0 | ⟨source, v, hd, h0⟩
    · exact h0
    · rw [h0]
      simp [_onUpdateFindControlState, hd, Viewer.new]
  rw [e] at h ⊢
  exact matchesAll_ascending sources Viewer.new ascending_new h k

theorem ascending_arrival_keeps_order_witness :
    ((Viewer.new = Viewer.new ∨ ∃ source v, source._dirtyMatch = true ∧
          Viewer.new = _onUpdateFindControlState .PENDING source v) ∧
        AscendingArrival Viewer.new [earlySource, lateSourceDone]) ∧
      (List.Pairwise (fun a b => a < b)
          (displayedPages (matchesAll Viewer.new ([earlySource, lateSourceDone].take 2))) ∧
        ∀ p, p ∈ displayedPages (matchesAll Viewer.new ([earlySource, lateSourceDone].take 2)) ↔
          flag (matchesAll Viewer.new ([earlySource, lateSourceDone].take 2)).pageMatches p
            = true) :=
  ⟨⟨Or.inl rfl, by decide, by decide, trivial⟩,
    ascending_arrival_keeps_order Viewer.new [earlySource, lateSourceDone] (Or.inl rfl)
      ⟨by decide, by decide, trivial⟩ 2⟩

theorem ascending_arrival_sample :
    displayedPages (matchesAll Viewer.new [earlySource, lateSourceDone]) = [0, 1] ∧
      ¬ AscendingArrival Viewer.new [lateSource, lateSourceDone] :=
  ⟨by decide, fun h => absurd h.2.1 (by decide)⟩

end PDFFindResultViewer
